import Mathlib

/-!
Verification of `docker_dynamic_ipv6.py` (EverSoJoe/docker-dynamic-ipv6).

The Python script is shallowly embedded below.  IPv6 addresses are modelled
as natural numbers below `2 ^ 128`; IPv6 networks as an address plus a
network mask length; the textual rendering and parsing performed by the
Python `ipaddress` module (`str(IPv6Network)`, `IPv6Network(string)`) are
modelled faithfully down to the character level, including the `::`
zero-run compression, so that the round trip performed by the script
(`update_docker_prefix` writes `str(last_subnet)`, a later
`docker_sys_prefix_same` parses it back) is proved, not assumed.

Fallible Python code is modelled with `Except PyError`:
`PyError.keyError` for `dict[missing]`, `PyError.valueError` for
`ipaddress` failures, `PyError.nameError` for reading an unbound variable,
as raised by the `__main__` block on an empty candidate set.
-/

/-- Unhandled Python exceptions that the script can raise. -/
inductive PyError where
  | keyError
  | valueError
  | nameError
deriving DecidableEq

/- ### Generic base-`b` digit machinery (used for hex and decimal rendering) -/

/-- Little-endian digits of `n` in base `b`; the first argument is fuel
(the recursion is on the fuel, keeping the definition kernel-reducible).
Matches the digit sequence produced by Python `%x` / `%d` formatting
(read in reverse).  Returns `[]` for `n = 0`. -/
def digitsRevCore (b : Nat) : Nat → Nat → List Nat
  | 0, _ => []
  | _ + 1, 0 => []
  | f + 1, n + 1 => ((n + 1) % b) :: digitsRevCore b f ((n + 1) / b)

/-- Value of a little-endian digit list in base `b`. -/
def valRev (b : Nat) : List Nat → Nat
  | [] => 0
  | d :: ds => valRev b ds * b + d

/-- Value of a big-endian digit list in base `b` (what Python `int(s, b)`
computes on the digit values of `s`). -/
def valBE (b : Nat) (ds : List Nat) : Nat :=
  ds.foldl (fun acc d => acc * b + d) 0

/-- Big-endian digits of `n` in base `b` (empty for `n = 0`). -/
def digitsBE (b n : Nat) : List Nat :=
  (digitsRevCore b n n).reverse

/- ### Characters -/

/-- Lowercase hexadecimal digit character, as produced by Python `%x`. -/
def hexDigitChar (d : Nat) : Char :=
  if d < 10 then Char.ofNat (48 + d) else Char.ofNat (87 + d)

/-- Decimal digit character, as produced by Python `%d`. -/
def decDigitChar (d : Nat) : Char :=
  Char.ofNat (48 + d)

/-- Numeric value of a hexadecimal digit character; `none` for characters
outside `0-9a-fA-F` (Python `int(s, 16)` on the members of
`_HEX_DIGITS`). -/
def hexVal (c : Char) : Option Nat :=
  if 48 ≤ c.toNat ∧ c.toNat ≤ 57 then some (c.toNat - 48)
  else if 97 ≤ c.toNat ∧ c.toNat ≤ 102 then some (c.toNat - 87)
  else if 65 ≤ c.toNat ∧ c.toNat ≤ 70 then some (c.toNat - 55)
  else none

/-- Numeric value of a decimal digit character; `none` otherwise. -/
def decVal (c : Char) : Option Nat :=
  if 48 ≤ c.toNat ∧ c.toNat ≤ 57 then some (c.toNat - 48)
  else none

/-- Hexadecimal rendering of `n` as a character list: Python `'%x' % n`. -/
def hexChars (n : Nat) : List Char :=
  if n = 0 then [decDigitChar 0] else (digitsBE 16 n).map hexDigitChar

/-- Decimal rendering of `n` as a character list: Python `'%d' % n`. -/
def decChars (n : Nat) : List Char :=
  if n = 0 then [decDigitChar 0] else (digitsBE 10 n).map decDigitChar

/- ### Small list helpers (with full control for the proofs below) -/

/-- `nth l i`: the `i`-th element of `l`, if any. -/
def nth {α : Type} : List α → Nat → Option α
  | [], _ => none
  | x :: _, 0 => some x
  | _ :: xs, n + 1 => nth xs n

/-- Split a character list at every occurrence of `sep`; mirrors Python
`str.split(sep)` for a one-character separator (`"::".split(':') =
['', '', '']`). -/
def splitOnChar (sep : Char) : List Char → List (List Char)
  | [] => [[]]
  | c :: cs =>
    let r := splitOnChar sep cs
    if c = sep then [] :: r
    else
      match r with
      | g :: gs => (c :: g) :: gs
      | [] => [[c]]

/-- Join character lists with a one-character separator; mirrors Python
`sep.join(parts)`. -/
def joinSep (sep : Char) : List (List Char) → List Char
  | [] => []
  | [x] => x
  | x :: y :: ys => x ++ sep :: joinSep sep (y :: ys)

/- ### Hextets: 16-bit groups of an IPv6 address -/

/-- Big-endian 16-bit groups; `toGroupsAux k a` is the `k` least
significant groups of `a`, most significant first. -/
def toGroupsAux : Nat → Nat → List Nat
  | 0, _ => []
  | k + 1, a => toGroupsAux k (a / 65536) ++ [a % 65536]

/-- The eight 16-bit groups of an IPv6 address. -/
def toGroups (a : Nat) : List Nat :=
  toGroupsAux 8 a

/-- Address value of a big-endian group list (Python builds `ip_int` with
`ip_int = ip_int << 16 | intval`). -/
def fromGroups (gs : List Nat) : Nat :=
  gs.foldl (fun acc g => acc * 65536 + g) 0

/-- The hextet a zero group renders to (`'%x' % 0 = "0"`). -/
def zeroHextet : List Char :=
  [decDigitChar 0]

/-- The rendered hextets of an address: Python builds
`['%x' % t for t in unpacked 16-bit groups]`. -/
def hextets (a : Nat) : List (List Char) :=
  (toGroups a).map hexChars

/-- Faithful port of the scanning loop of Python
`_compress_hextets`: walks the hextet list tracking the current run of
`'0'` hextets (`cs`, `cl`) and the best run so far (`bs`, `bl`), updating
the best only on a strictly longer run, so the leftmost longest run wins.
`i` is the index of the head of `t` in the original list. -/
def bestRunFold : List (List Char) → Nat → Nat → Nat → Nat → Nat → Nat × Nat
  | [], _, _, _, bs, bl => (bs, bl)
  | h :: t, i, cs, cl, bs, bl =>
    if h = zeroHextet then
      let cs2 := if cl = 0 then i else cs
      let cl2 := cl + 1
      if bl < cl2 then bestRunFold t (i + 1) cs2 cl2 cs2 cl2
      else bestRunFold t (i + 1) cs2 cl2 bs bl
    else bestRunFold t (i + 1) 0 0 bs bl

/-- Start and length of the leftmost longest run of `'0'` hextets. -/
def bestRun (l : List (List Char)) : Nat × Nat :=
  bestRunFold l 0 0 0 0 0

/-- Python `_compress_hextets`: replace the best zero run (if longer than
one hextet) by an empty string, padding with another empty string when the
run touches either end so that `':'.join` produces `::`. -/
def compressHextets (hs : List (List Char)) : List (List Char) :=
  if (bestRun hs).2 ≤ 1 then hs
  else
    (if hs.take (bestRun hs).1 = [] then [([] : List Char)]
     else hs.take (bestRun hs).1) ++ [([] : List Char)] ++
      (if hs.drop ((bestRun hs).1 + (bestRun hs).2) = [] then [([] : List Char)]
       else hs.drop ((bestRun hs).1 + (bestRun hs).2))

/-- The characters of Python `str(IPv6Address(a))`. -/
def addrChars (a : Nat) : List Char :=
  joinSep ':' (compressHextets (hextets a))

/- ### Parsing an IPv6 address (Python `_ip_int_from_string`) -/

/-- Digit values of a character list, `none` when some character is not
a digit of the base described by `dv`. -/
def digitVals (dv : Char → Option Nat) : List Char → Option (List Nat)
  | [] => some []
  | c :: cs =>
    match dv c, digitVals dv cs with
    | some d, some ds => some (d :: ds)
    | _, _ => none

/-- Python `_parse_hextet`: between one and four hexadecimal digits. -/
def parse_hextet (p : List Char) : Option Nat :=
  if p.length = 0 ∨ 4 < p.length then none
  else
    match digitVals hexVal p with
    | some ds => some (valBE 16 ds)
    | none => none

/-- Indices of empty parts strictly between the first and last part:
Python scans `range(1, len(parts) - 1)` for `skip_index` candidates. -/
def innerEmptyIdxs (parts : List (List Char)) : List Nat :=
  (List.range parts.length).filter fun i =>
    decide (1 ≤ i) && decide (i + 1 < parts.length) &&
      decide (nth parts i = some ([] : List Char))

/-- `ip_int = ip_int << 16 | _parse_hextet(part)` folded over parts. -/
def foldHextets : Nat → List (List Char) → Option Nat
  | acc, [] => some acc
  | acc, p :: ps =>
    match parse_hextet p with
    | some v => foldHextets (acc * 65536 + v) ps
    | none => none

/-- Faithful port of Python `_ip_int_from_string` applied to the parts of
`ip_str.split(':')` (the IPv4-mapped dotted-quad tail, which this
repository never produces nor stores, is not modelled: parts containing
`.` simply fail to parse as hextets). -/
def parse_parts (parts : List (List Char)) : Option Nat :=
  if parts.length < 3 then none
  else if 9 < parts.length then none
  else
    match innerEmptyIdxs parts with
    | [] =>
      if parts.length ≠ 8 then none
      else if nth parts 0 = some ([] : List Char) then none
      else if nth parts (parts.length - 1) = some ([] : List Char) then none
      else foldHextets 0 parts
    | [k] =>
      if nth parts 0 = some ([] : List Char) ∧ k ≠ 1 then none
      else if nth parts (parts.length - 1) = some ([] : List Char) ∧
          parts.length - k - 1 ≠ 1 then none
      else
        let hi := if nth parts 0 = some ([] : List Char) then 0 else k
        let lo := if nth parts (parts.length - 1) = some ([] : List Char) then 0
          else parts.length - k - 1
        if 7 < hi + lo then none
        else
          match foldHextets 0 (parts.take hi),
              foldHextets 0 (parts.drop (parts.length - lo)) with
          | some vhi, some vlo => some (vhi * 65536 ^ (8 - hi) + vlo)
          | _, _ => none
    | _ => none

/-- Characters of an IPv6 address literal to its integer value. -/
def parseAddrChars (cs : List Char) : Option Nat :=
  parse_parts (splitOnChar ':' cs)

/-- Python `_prefix_from_prefix_string`: a non-empty all-decimal string,
value at most 128. -/
def parseNetmaskChars (p : List Char) : Option Nat :=
  if p.length = 0 then none
  else
    match digitVals decVal p with
    | some ds => if valBE 10 ds ≤ 128 then some (valBE 10 ds) else none
    | none => none

/- ### IPv6 networks -/

/-- Clear the low `128 - p` bits of `a`: the network address of `a`
under a `p`-bit netmask. -/
def maskAddr (a p : Nat) : Nat :=
  a / 2 ^ (128 - p) * 2 ^ (128 - p)

/-- An IPv6 network: network address plus mask length, as held by Python
`ipaddress.IPv6Network` (whose equality compares exactly these two). -/
structure IPv6Network where
  addr : Nat
  plen : Nat
deriving DecidableEq

/-- Python `IPv6Network.supernet()` with the default `prefixlen_diff=1`:
the identity on `/0`, otherwise the containing network one bit shorter. -/
def IPv6Network.supernet (n : IPv6Network) : IPv6Network :=
  if n.plen = 0 then n else ⟨maskAddr n.addr (n.plen - 1), n.plen - 1⟩

/-- Python `IPv6Network.subnets()` with the default `prefixlen_diff=1`.
CPython special-cases a maximal prefix first
(`if self._prefixlen == self._max_prefixlen: yield self; return`), so a
`/128` network yields just itself; otherwise it yields the two halves,
each one bit longer.  The `ValueError` branch for a new length beyond
128 is unreachable for representable networks but kept for fidelity. -/
def IPv6Network.subnets (n : IPv6Network) : Except PyError (List IPv6Network) :=
  if n.plen = 128 then .ok [n]
  else if n.plen < 128 then
    .ok [⟨n.addr, n.plen + 1⟩, ⟨n.addr + 2 ^ (127 - n.plen), n.plen + 1⟩]
  else .error .valueError

/-- The element of `subnets()` bound by `*_, last_subnet = ...`: the
network itself at `/128`, otherwise the upper half one bit longer. -/
def last_subnet_of (n : IPv6Network) : IPv6Network :=
  if n.plen = 128 then n else ⟨n.addr + 2 ^ (127 - n.plen), n.plen + 1⟩

/-- `*_, last_subnet = gen`: the last yielded element; raises when the
generator yields nothing. -/
def lastOf {α : Type} : List α → Except PyError α
  | [] => .error .valueError
  | [x] => .ok x
  | _ :: y :: ys => lastOf (y :: ys)

/-- Characters of Python `str(IPv6Network)`, which is
`'%s/%d' % (network_address, prefixlen)`. -/
def netChars (n : IPv6Network) : List Char :=
  addrChars n.addr ++ '/' :: decChars n.plen

/-- Python `str(IPv6Network)`. -/
def str_IPv6Network (n : IPv6Network) : String :=
  String.mk (netChars n)

/-- Python `IPv6Network(string)` with `strict=True` (the default, as used
by `docker_sys_prefix_same`): splits an optional `/netmask`, parses the
address, and rejects set host bits. -/
def parse_IPv6Network_strict (s : String) : Option IPv6Network :=
  match splitOnChar '/' s.data with
  | [a] =>
    match parseAddrChars a with
    | some av => if maskAddr av 128 = av then some ⟨av, 128⟩ else none
    | none => none
  | [a, p] =>
    match parseAddrChars a, parseNetmaskChars p with
    | some av, some pv =>
      if maskAddr av pv = av then some ⟨av, pv⟩ else none
    | _, _ => none
  | _ => none

/- ### `check_private` (Python `IPv6Address.is_private`) -/

/-- The `_private_networks` constant of the Python `ipaddress` module
(CPython 3.11): `::1/128`, `::/128`, `::ffff:0:0/96`, `100::/64`,
`2001::/23`, `2001:2::/48`, `2001:db8::/32`, `2001:10::/28`, `fc00::/7`,
`fe80::/10`. -/
def private_networks : List IPv6Network :=
  [⟨1, 128⟩,
   ⟨0, 128⟩,
   ⟨0xffff * 2 ^ 32, 96⟩,
   ⟨0x100 * 2 ^ 112, 64⟩,
   ⟨0x2001 * 2 ^ 112, 23⟩,
   ⟨0x2001 * 2 ^ 112 + 0x2 * 2 ^ 80, 48⟩,
   ⟨0x2001 * 2 ^ 112 + 0xdb8 * 2 ^ 96, 32⟩,
   ⟨0x2001 * 2 ^ 112 + 0x10 * 2 ^ 96, 28⟩,
   ⟨0xfc00 * 2 ^ 112, 7⟩,
   ⟨0xfe80 * 2 ^ 112, 10⟩]

/-- `address in network` for Python networks: the address masked to the
network length equals the network address. -/
def inNetwork (a : Nat) (n : IPv6Network) : Bool :=
  decide (maskAddr a n.plen = n.addr)

/-- `check_private` of the script: `IPv6Address(ipv6).is_private`, i.e.
membership in any of `_private_networks` (the `info` logging it performs
carries no data and is not modelled).  The argument is the integer value
of the already-parsed address. -/
def check_private (ipv6 : Nat) : Bool :=
  private_networks.any fun n => inNetwork ipv6 n

/- ### Address records (`ip -6 -json` entries of `addr_info`) -/

/-- One entry of `ipv6_info[0]['addr_info']`.  Each field of the JSON
dict that the script reads is an `Option`, `none` meaning the key is
absent (so that reading it raises `KeyError`); `other_keys` lists any
further keys so that `addr_info == {}` is the test that all of this is
empty.  The `local` value is the integer value of the reported address
(the script only ever passes it to `ipaddress`, which parses it). -/
structure AddrInfo where
  local_addr : Option Nat
  prefixlen : Option Nat
  valid_life_time : Option Nat
  other_keys : List String := []
deriving DecidableEq

/-- Python `addr_info == {}`. -/
def AddrInfo.isEmptyDict (r : AddrInfo) : Bool :=
  r.local_addr.isNone && r.prefixlen.isNone && r.valid_life_time.isNone &&
    r.other_keys.isEmpty

/-- Well-formed record: either the empty dict, or it carries the three
fields the script reads, with a plausible mask length (as the `ip`
utility always reports).  Stated with `isSome`/`getD` so that it is
decidable on concrete records. -/
def AddrInfo.wf (r : AddrInfo) : Prop :=
  r.isEmptyDict = true ∨
    (r.local_addr.isSome = true ∧ r.valid_life_time.isSome = true ∧
      r.prefixlen.isSome = true ∧ r.prefixlen.getD 0 ≤ 128)

instance (r : AddrInfo) : Decidable r.wf :=
  inferInstanceAs (Decidable (r.isEmptyDict = true ∨
    (r.local_addr.isSome = true ∧ r.valid_life_time.isSome = true ∧
      r.prefixlen.isSome = true ∧ r.prefixlen.getD 0 ≤ 128)))

/-- The selection loop of the `__main__` block:

    validity = 0
    for addr_info in ipv6_info[0]['addr_info']:
        if addr_info == {} or check_private(addr_info['local']):
            continue
        if validity < addr_info['valid_life_time']:
            validity = addr_info['valid_life_time']
            sys_ipv6_net = ipaddress.IPv6Network('%s/%s' % (addr_info['local'],
                addr_info['prefixlen']), strict=False)

`acc` is the value of `sys_ipv6_net`, `none` while still unbound.
`IPv6Network(..., strict=False)` masks the host bits away and raises
`ValueError` on a mask length above 128. -/
def select_loop : List AddrInfo → Nat → Option IPv6Network →
    Except PyError (Option IPv6Network)
  | [], _, acc => .ok acc
  | r :: rs, validity, acc =>
    if r.isEmptyDict then select_loop rs validity acc
    else
      match r.local_addr with
      | none => .error .keyError
      | some a =>
        if check_private a then select_loop rs validity acc
        else
          match r.valid_life_time with
          | none => .error .keyError
          | some v =>
            if validity < v then
              match r.prefixlen with
              | none => .error .keyError
              | some p =>
                if p ≤ 128 then select_loop rs v (some ⟨maskAddr a p, p⟩)
                else .error .valueError
            else select_loop rs validity acc

/-- The whole selection step of `__main__`.  When the loop never assigned
`sys_ipv6_net`, the following line `if not sys_ipv6_net:` reads an
unbound variable and raises `NameError`; the `error(...)`/`exit(1)`
branch guarded by it is unreachable, because a bound `IPv6Network` is
always truthy. -/
def select_network (rs : List AddrInfo) : Except PyError IPv6Network :=
  match select_loop rs 0 none with
  | .error e => .error e
  | .ok (some n) => .ok n
  | .ok none => .error .nameError

/- ### Selection described by the spec (for refinement comparison) -/

/-- Spec-side candidate filter, following the spec text: records that are
empty/malformed and records whose address is private are filtered out. -/
def spec_is_candidate (r : AddrInfo) : Bool :=
  !r.isEmptyDict &&
    (match r.local_addr with
     | some a => !check_private a
     | none => false)

/-- Spec-side candidate list. -/
def spec_candidates (rs : List AddrInfo) : List AddrInfo :=
  rs.filter spec_is_candidate

/-- Validity lifetime of a record, 0 when absent. -/
def specVlt (r : AddrInfo) : Nat :=
  r.valid_life_time.getD 0

/-- Spec-side maximum validity lifetime over the candidates. -/
def spec_max_validity (rs : List AddrInfo) : Nat :=
  (spec_candidates rs).foldl (fun m r => max m (specVlt r)) 0

/-- Spec-side selected record: the first candidate achieving the maximum
validity lifetime. -/
def spec_selected (rs : List AddrInfo) : Option AddrInfo :=
  (spec_candidates rs).find? fun r => specVlt r == spec_max_validity rs

/-- The network the spec builds from a record: its address and mask
length with host bits normalized away. -/
def netOfRec (r : AddrInfo) : IPv6Network :=
  ⟨maskAddr (r.local_addr.getD 0) (r.prefixlen.getD 0), r.prefixlen.getD 0⟩

/-- One step of the selection loop on a candidate, as a pure fold. -/
def selStep (s : Nat × Option IPv6Network) (r : AddrInfo) :
    Nat × Option IPv6Network :=
  if s.1 < specVlt r then (specVlt r, some (netOfRec r)) else s

/- ### The daemon configuration file (JSON) -/

/-- A JSON scalar value of the daemon configuration object.  The
configuration file of the docker daemon is a flat JSON object (the spec
documents it as such); the values this tool reads and writes are strings,
and other keys hold scalars that are carried through verbatim. -/
inductive JVal where
  | str (s : String)
  | num (n : Int)
  | bool (b : Bool)
  | null
deriving DecidableEq

/-- The parsed JSON object of the configuration file. -/
abbrev JObj := List (String × JVal)

/-- The state of the configuration file: `none` when the file does not
exist, otherwise the JSON object its text parses to. -/
abbrev ConfigFS := Option JObj

/-- Python `dict[key]` lookup. -/
def jlookup : JObj → String → Option JVal
  | [], _ => none
  | (k, v) :: rest, key => if k = key then some v else jlookup rest key

/-- Python `dict[key] = value`: replaces the value in place, or appends
the key when absent. -/
def setKey : JObj → String → JVal → JObj
  | [], key, v => [(key, v)]
  | (k, w) :: rest, key, v =>
    if k = key then (key, v) :: rest else (k, w) :: setKey rest key v

/-- The configuration key this tool rewrites. -/
def fixed_cidr_key : String :=
  "fixed-cidr-v6"

/-- JSON string escaping (quote and backslash; the strings this tool
reads and writes never contain control characters). -/
def json_escape_chars : List Char → List Char
  | [] => []
  | c :: cs =>
    if c = '"' ∨ c = '\\' then '\\' :: c :: json_escape_chars cs
    else c :: json_escape_chars cs

/-- A JSON string literal. -/
def jstring (s : String) : String :=
  String.mk ('"' :: json_escape_chars s.data ++ ['"'])

/-- Rendering of one JSON scalar. -/
def jval_render : JVal → String
  | .str s => jstring s
  | .num n => toString n
  | .bool true => "true"
  | .bool false => "false"
  | .null => "null"

/-- One `indent=4` object entry: four spaces, the key, `: `, the value. -/
def entry_render (e : String × JVal) : String :=
  "    " ++ jstring e.1 ++ ": " ++ jval_render e.2

/-- Code-point lexicographic comparison of character lists: how Python
compares `str` keys when sorting. -/
def strLeChars : List Char → List Char → Bool
  | [], _ => true
  | _ :: _, [] => false
  | c :: cs, d :: ds =>
    if c.toNat < d.toNat then true
    else if d.toNat < c.toNat then false
    else strLeChars cs ds

/-- Python `str` comparison of two keys. -/
def stringKeyLe (a b : String) : Bool :=
  strLeChars a.data b.data

/-- The order `sorted(dict.items())` applies (keys are unique in a JSON
object, so the tuple comparison never reaches the values). -/
def keyLe (a b : String × JVal) : Bool :=
  stringKeyLe a.1 b.1

/-- `sort_keys=True`: entries sorted by key. -/
def sortedEntries (cfg : JObj) : JObj :=
  List.insertionSort (fun a b => keyLe a b = true) cfg

/-- The text of the sorted entries, joined Python-style. -/
def renderEntries : JObj → String
  | [] => "\x7b\x7d"
  | e :: es =>
    "\x7b\n" ++ String.intercalate ",\n" ((e :: es).map entry_render) ++ "\n\x7d"

/-- Python `json.dump(docker_config, f, indent=4, sort_keys=True)`:
key-sorted, indented rendering of the whole object. -/
def json_dump (cfg : JObj) : String :=
  renderEntries (sortedEntries cfg)

/- ### The script functions -/

/-- Result of `docker_sys_prefix_same`: the error messages it logged and
its Python return value (`None`, `True` or `False`). -/
structure SameResult where
  errlogs : List String
  value : Option Bool
deriving DecidableEq

/-- The message `error('Docker config file %s does not exist' % file)`. -/
def msg_config_missing (docker_config_file : String) : String :=
  "Docker config file " ++ docker_config_file ++ " does not exist"

/-- `docker_sys_prefix_same(docker_config_file, sys_ipv6_net)`: when the
file is missing it logs an error and returns `None`; otherwise it parses
`docker_config['fixed-cidr-v6']` as a strict `IPv6Network` (raising
`KeyError` when the key is absent and `ValueError` when the value does
not parse) and returns whether its supernet equals `sys_ipv6_net`.
The file state stands for the JSON object the file parses to. -/
def docker_sys_prefix_same (docker_config_file : String) (fs : ConfigFS)
    (sys_ipv6_net : IPv6Network) : Except PyError SameResult :=
  match fs with
  | none => .ok ⟨[msg_config_missing docker_config_file], none⟩
  | some docker_config =>
    match jlookup docker_config fixed_cidr_key with
    | none => .error .keyError
    | some v =>
      match v with
      | .str s =>
        match parse_IPv6Network_strict s with
        | some docker_ipv6_net =>
          .ok ⟨[], some (decide (docker_ipv6_net.supernet = sys_ipv6_net))⟩
        | none => .error .valueError
      | .num i =>
        if 0 ≤ i ∧ i < (2 : Int) ^ 128 then
          .ok ⟨[], some (decide (IPv6Network.supernet ⟨i.toNat, 128⟩ = sys_ipv6_net))⟩
        else .error .valueError
      | .bool b =>
        .ok ⟨[], some (decide (IPv6Network.supernet ⟨if b then 1 else 0, 128⟩ = sys_ipv6_net))⟩
      | .null => .error .valueError

/-- Result of `update_docker_prefix`: logged error messages, the file
state afterwards, and the text written (`none` when nothing was
written). -/
structure UpdateResult where
  errlogs : List String
  new_fs : ConfigFS
  written : Option String
deriving DecidableEq

/-- `update_docker_prefix(docker_config_file, sys_ipv6_net)`: when the
file is missing it logs an error and returns `None` without writing;
otherwise it takes the last of `sys_ipv6_net.subnets()` (the upper half
one bit longer, or the network itself on a `/128`), stores its string
form under `fixed-cidr-v6` and rewrites the file as indented key-sorted
JSON, replacing the previous contents. -/
def update_docker_prefix (docker_config_file : String) (fs : ConfigFS)
    (sys_ipv6_net : IPv6Network) : Except PyError UpdateResult :=
  match fs with
  | none => .ok ⟨[msg_config_missing docker_config_file], none, none⟩
  | some docker_config =>
    match sys_ipv6_net.subnets with
    | .error e => .error e
    | .ok subs =>
      match lastOf subs with
      | .error e => .error e
      | .ok last_subnet =>
        let docker_config2 :=
          setKey docker_config fixed_cidr_key (.str (str_IPv6Network last_subnet))
        .ok ⟨[], some docker_config2, some (json_dump docker_config2)⟩

/-- Result of `restart_docker`: its error-level and info-level logs.  The
function always returns `None`; a nonzero exit status of `systemctl` is
only logged. -/
structure RestartResult where
  errlogs : List String
  infologs : List String
deriving DecidableEq

/-- `restart_docker()`, applied to the exit status and diagnostic output
of `systemctl restart docker`. -/
def restart_docker (returncode : Int) (stderr : String) : RestartResult :=
  if returncode ≠ 0 then
    ⟨["Error while restarting docker daemon", stderr],
     ["Restarting docker daemon"]⟩
  else
    ⟨[], ["Restarting docker daemon", "Docker daemon restarted successfully"]⟩

/-- The command line `get_global_ipv6` runs.  The function receives an
`interface` parameter but builds the command from the parsed global CLI
arguments (`args.interface`) instead. -/
def get_global_ipv6_cmd (args_interface : String) ( interface : String) :
    List String :=
  ["ip", "-6", "-json", "address", "show", "dev", args_interface,
   "scope", "global", "-tentative"]

/- ### The `__main__` block -/

/-- Outside state the one run interacts with: whether the `ip` utility
exists, its exit status, diagnostics and parsed records
(`ipv6_info[0]['addr_info']`), and the exit status and diagnostics of
the `systemctl` restart. -/
structure SysState where
  ip_available : Bool
  ip_returncode : Int
  ip_stderr : String
  addr_records : List AddrInfo
  restart_returncode : Int
  restart_stderr : String
deriving DecidableEq

/-- Observable outcome of one run of the script: process exit code,
final configuration file state, whether the configuration was written,
whether `restart_docker` was invoked, the error-level log lines, and the
unhandled exception if the interpreter crashed (a crash also exits with
status 1, but prints a traceback instead of logging). -/
structure RunOutcome where
  exit_code : Nat
  fs : ConfigFS
  wrote : Bool
  restart_invoked : Bool
  errlogs : List String
  crashed : Option PyError
deriving DecidableEq

/-- The `__main__` block as a function of the outside state, the
configured path and the initial file state.  Argument parsing and
logging setup are data-free and elided; `ipv6_info[0]['addr_info']` is
`sys.addr_records`.  Note that `if not docker_sys_prefix_same(...)`
treats the `None` returned for a missing file like `False` and proceeds
to update and restart. -/
def run_main (sys : SysState) (dockerconfig : String) (fs0 : ConfigFS) :
    RunOutcome :=
  if !sys.ip_available then
    ⟨1, fs0, false, false, ["Unix tool \x27ip\x27 is not installed"], none⟩
  else if sys.ip_returncode ≠ 0 then
    ⟨1, fs0, false, false,
     ["Error while running system \x27ip\x27 utility", sys.ip_stderr], none⟩
  else
    match select_network sys.addr_records with
    | .error e => ⟨1, fs0, false, false, [], some e⟩
    | .ok sys_ipv6_net =>
      match docker_sys_prefix_same dockerconfig fs0 sys_ipv6_net with
      | .error e => ⟨1, fs0, false, false, [], some e⟩
      | .ok same =>
        if same.value = some true then
          ⟨0, fs0, false, false, same.errlogs, none⟩
        else
          match update_docker_prefix dockerconfig fs0 sys_ipv6_net with
          | .error e => ⟨1, fs0, false, false, same.errlogs, some e⟩
          | .ok upd =>
            let rr := restart_docker sys.restart_returncode sys.restart_stderr
            ⟨0, upd.new_fs, upd.written.isSome, true,
             same.errlogs ++ upd.errlogs ++ rr.errlogs, none⟩

/- ### Proof-support definitions and concrete test fixtures -/

/-- `ZeroSlice l s n`: positions `s, …, s + n - 1` of `l` all hold the
`'0'` hextet. -/
def ZeroSlice (l : List (List Char)) (s n : Nat) : Prop :=
  ∀ j, j < n → nth l (s + j) = some zeroHextet

/-- A record with the three fields the script reads. -/
def recOf (a p v : Nat) : AddrInfo :=
  ⟨some a, some p, some v, []⟩

/-- `2a01::1`, a global (non-private) address. -/
def gAddr1 : Nat := 0x2a01 * 2 ^ 112 + 1

/-- `2a01:4f8::2`, a global (non-private) address. -/
def gAddr2 : Nat := 0x2a01 * 2 ^ 112 + 0x4f8 * 2 ^ 96 + 2

/-- `2a01::3`, a global (non-private) address. -/
def gAddr3 : Nat := 0x2a01 * 2 ^ 112 + 3

/-- A candidate record whose validity lifetime is 0. -/
def c2cex_records : List AddrInfo :=
  [recOf gAddr1 64 0]

/-- The lifetime sequence 100, 300, 50 of the spec example, as full
records on global addresses. -/
def c2wit_records : List AddrInfo :=
  [recOf gAddr1 64 100, recOf gAddr2 64 300, recOf gAddr3 56 50]

/-- A malformed record (non-empty, but the `local` key is missing)
followed by a perfectly good one. -/
def c3cex_records : List AddrInfo :=
  [⟨none, some 64, some 100, []⟩, recOf gAddr2 64 3600]

/-- A single empty record: the filtered candidate set is empty. -/
def c8_records : List AddrInfo :=
  [⟨none, none, none, []⟩]

/-- The default configuration path of the script. -/
def default_config_path : String :=
  "/etc/docker/daemon.json"

/-- A config object holding the CIDR `2001:db8:1::/64`. -/
def c4_cfg : JObj :=
  [(fixed_cidr_key, JVal.str ("2001:db8:1::/64"))]

/-- `2001:db8:1::/63`, the supernet of `2001:db8:1::/64`. -/
def c4_net : IPv6Network :=
  ⟨0x2001 * 2 ^ 112 + 0xdb8 * 2 ^ 96 + 2 ^ 80, 63⟩

/-- A config object with one unrelated key besides the CIDR key. -/
def wit_cfg : JObj :=
  [("ipv6", JVal.bool true), (fixed_cidr_key, JVal.str ("2001:db8::/80"))]

/-- `2a01::/64`, a selected network. -/
def wit_net : IPv6Network :=
  ⟨0x2a01 * 2 ^ 112, 64⟩

/-- `2a01::8000:0:0:0/65`, the last `/65` subnet of `2a01::/64`. -/
def wit_last : IPv6Network :=
  ⟨0x2a01 * 2 ^ 112 + 2 ^ 63, 65⟩

/-- System state for a run against a missing config file: `ip` present
and succeeding with one good global record, `systemctl` succeeding. -/
def c1_sys : SysState :=
  ⟨true, 0, "", [recOf gAddr2 64 3600], 0, ""⟩

/-- System state whose address records give no usable candidate. -/
def c8_sys : SysState :=
  ⟨true, 0, "", c8_records, 0, ""⟩

/-- System state for a run in which the daemon restart fails. -/
def c9_sys : SysState :=
  ⟨true, 0, "", [recOf gAddr2 64 3600], 1, "job failed"⟩

/-- `2001:db8:1::/64`, the network the string in `c4_cfg` parses to. -/
def c4_c : IPv6Network :=
  ⟨0x2001 * 2 ^ 112 + 0xdb8 * 2 ^ 96 + 2 ^ 80, 64⟩

/-- An address in `fc00::/7` (unique local, private). -/
def privAddr : Nat := 0xfd00 * 2 ^ 112 + 9

/-- An empty record, a private record with the longest lifetime, and a
good global record. -/
def c3wit_records : List AddrInfo :=
  [⟨none, none, none, []⟩, recOf privAddr 64 9999, recOf gAddr2 64 50]

/-- The network the `c1_sys`/`c9_sys` records select: `2a01:4f8::/64`. -/
def c9_net : IPv6Network :=
  ⟨maskAddr gAddr2 64, 64⟩

/-- The object `update_docker_prefix` builds from `wit_cfg` and `c9_net`. -/
def c9_cfg2 : JObj :=
  setKey wit_cfg fixed_cidr_key
    (JVal.str (str_IPv6Network ⟨maskAddr gAddr2 64 + 2 ^ 63, 65⟩))

/-- The comparison result of `wit_cfg` against `c9_net`. -/
def c9_same : SameResult :=
  ⟨[], some false⟩

/-- The update result of `wit_cfg` against `c9_net`. -/
def c9_upd : UpdateResult :=
  ⟨[], some c9_cfg2, some (json_dump c9_cfg2)⟩

/-- System state whose single record selects `wit_net` (`2a01::/64`). -/
def c7_sys : SysState :=
  ⟨true, 0, "", [recOf (0x2a01 * 2 ^ 112 + 7) 64 1000], 0, ""⟩

/-- The object `update_docker_prefix` builds from `wit_cfg` and `wit_net`. -/
def c7_cfg2 : JObj :=
  setKey wit_cfg fixed_cidr_key (JVal.str (str_IPv6Network wit_last))

/-- The update result of `wit_cfg` against `wit_net`. -/
def c7_upd : UpdateResult :=
  ⟨[], some c7_cfg2, some (json_dump c7_cfg2)⟩

/-- `2a01:4f8::2/128`, a selected network of maximal prefix length (a
single reported address with `prefixlen` 128). -/
def c7cex_net : IPv6Network :=
  ⟨gAddr2, 128⟩

/-- System state whose single record selects the `/128` network
`c7cex_net`. -/
def c7cex_sys : SysState :=
  ⟨true, 0, "", [recOf gAddr2 128 3600], 0, ""⟩

/-- The object `update_docker_prefix` builds from `wit_cfg` and the
`/128` network: the network's own string is stored. -/
def c7cex_cfg2 : JObj :=
  setKey wit_cfg fixed_cidr_key (JVal.str (str_IPv6Network c7cex_net))

/-- The update result of `wit_cfg` against the `/128` network. -/
def c7cex_upd : UpdateResult :=
  ⟨[], some c7cex_cfg2, some (json_dump c7cex_cfg2)⟩

/-- Decidable equality for `Except` results, so that concrete runs of the
embedded script can be checked by evaluation. -/
instance {ε α : Type} [DecidableEq ε] [DecidableEq α] : DecidableEq (Except ε α) :=
  fun x y =>
    match x, y with
    | .ok a, .ok b =>
      if h : a = b then isTrue (by rw [h]) else isFalse (by intro hc; cases hc; exact h rfl)
    | .ok _, .error _ => isFalse (by intro hc; cases hc)
    | .error _, .ok _ => isFalse (by intro hc; cases hc)
    | .error e, .error f =>
      if h : e = f then isTrue (by rw [h]) else isFalse (by intro hc; cases hc; exact h rfl)

/-- The key order used by `sort_keys=True` is total. -/
instance : IsTotal (String × JVal) (fun a b => keyLe a b = true) := by
  constructor
  intro a b
  rw [keyLe, keyLe, stringKeyLe, stringKeyLe]
  generalize a.1.data = xs
  generalize b.1.data = ys
  induction xs generalizing ys with
  | nil => exact Or.inl rfl
  | cons c cs ih =>
    match ys with
    | [] => exact Or.inr rfl
    | d :: ds =>
      rw [strLeChars, strLeChars]
      rcases Nat.lt_trichotomy c.toNat d.toNat with h | h | h
      · exact Or.inl (by rw [if_pos h])
      · rw [if_neg (by omega), if_neg (by omega), if_neg (by omega), if_neg (by omega)]
        exact ih ds
      · exact Or.inr (by rw [if_pos h])

/-- The key order used by `sort_keys=True` is transitive. -/
instance : IsTrans (String × JVal) (fun a b => keyLe a b = true) := by
  constructor
  intro a b c hab hbc
  rw [keyLe, stringKeyLe] at hab hbc ⊢
  revert hab hbc
  generalize a.1.data = xs
  generalize b.1.data = ys
  generalize c.1.data = zs
  induction xs generalizing ys zs with
  | nil => intro _ _; rfl
  | cons x xs ih =>
    intro hab hbc
    match ys with
    | [] => rw [strLeChars] at hab; cases hab
    | y :: ys =>
      match zs with
      | [] => rw [strLeChars] at hbc; cases hbc
      | z :: zs =>
        rw [strLeChars] at hab hbc ⊢
        rcases Nat.lt_trichotomy x.toNat y.toNat with hxy | hxy | hxy <;>
          rcases Nat.lt_trichotomy y.toNat z.toNat with hyz | hyz | hyz
        · rw [if_pos (by omega)]
        · rw [if_pos (by omega)]
        · rw [if_neg (by omega), if_pos hyz] at hbc
          cases hbc
        · rw [if_pos (by omega)]
        · rw [if_neg (by omega), if_neg (by omega)] at hab hbc
          rw [if_neg (by omega), if_neg (by omega)]
          exact ih ys zs hab hbc
        · rw [if_neg (by omega), if_pos hyz] at hbc
          cases hbc
        · rw [if_neg (by omega), if_pos hxy] at hab
          cases hab
        · rw [if_neg (by omega), if_pos hxy] at hab
          cases hab
        · rw [if_neg (by omega), if_pos hxy] at hab
          cases hab

/- ### Theorems: digit machinery -/

theorem digitsRevCore_succ (b f m : Nat) :
    digitsRevCore b (f + 1) (m + 1) = ((m + 1) % b) :: digitsRevCore b f ((m + 1) / b) := rfl

theorem valRev_digitsRevCore (b : Nat) (hb : 2 ≤ b) :
    ∀ f n, n ≤ f → valRev b (digitsRevCore b f n) = n := by
  intro f
  induction f with
  | zero =>
    intro n hn
    have : n = 0 := Nat.le_zero.mp hn
    subst this
    rfl
  | succ f ih =>
    intro n hn
    match n with
    | 0 => rfl
    | m + 1 =>
      have hlt : (m + 1) / b < m + 1 := Nat.div_lt_self (Nat.succ_pos m) (by omega)
      have hdiv : (m + 1) / b ≤ f := by omega
      rw [digitsRevCore_succ, valRev, ih _ hdiv, Nat.mul_comm]
      exact Nat.div_add_mod _ _

theorem digitsRevCore_lt (b : Nat) (hb : 1 ≤ b) :
    ∀ f n d, d ∈ digitsRevCore b f n → d < b := by
  intro f
  induction f with
  | zero => intro n d hd; simp [digitsRevCore] at hd
  | succ f ih =>
    intro n d hd
    match n with
    | 0 => simp [digitsRevCore] at hd
    | m + 1 =>
      rw [digitsRevCore_succ] at hd
      rcases List.mem_cons.mp hd with h | h
      · subst h; exact Nat.mod_lt _ (by omega)
      · exact ih _ _ h

theorem length_digitsRevCore_le (b : Nat) (hb : 2 ≤ b) :
    ∀ f n k, n < b ^ k → (digitsRevCore b f n).length ≤ k := by
  intro f
  induction f with
  | zero => intro n k _; simp [digitsRevCore]
  | succ f ih =>
    intro n k hn
    match n with
    | 0 => simp [digitsRevCore]
    | m + 1 =>
      match k with
      | 0 => simp at hn
      | k + 1 =>
        rw [digitsRevCore_succ]
        have hdivlt : (m + 1) / b < b ^ k := by
          have hb0 : 0 < b := by omega
          rw [Nat.div_lt_iff_lt_mul hb0]
          calc m + 1 < b ^ (k + 1) := hn
            _ = b ^ k * b := by rw [Nat.pow_succ]
        have := ih ((m + 1) / b) k hdivlt
        simp only [List.length_cons]
        omega

theorem digitsRevCore_ne_nil (b f n : Nat) (h1 : 1 ≤ n) (h2 : n ≤ f) :
    digitsRevCore b f n ≠ [] := by
  match f, n with
  | 0, n => omega
  | f + 1, 0 => omega
  | f + 1, m + 1 => rw [digitsRevCore_succ]; simp

theorem valRev_eq_foldr (b : Nat) (ds : List Nat) :
    valRev b ds = ds.foldr (fun d a => a * b + d) 0 := by
  induction ds with
  | nil => rfl
  | cons d ds ih => rw [valRev, List.foldr_cons, ih]

theorem valBE_reverse (b : Nat) (ds : List Nat) :
    valBE b ds.reverse = valRev b ds := by
  rw [valBE, List.foldl_reverse, valRev_eq_foldr]

theorem foldl_base_acc (b : Nat) (ds : List Nat) :
    ∀ acc, ds.foldl (fun a d => a * b + d) acc = acc * b ^ ds.length + valBE b ds := by
  induction ds with
  | nil => intro acc; simp [valBE]
  | cons d ds ih =>
    intro acc
    have hv : valBE b (d :: ds) = d * b ^ ds.length + valBE b ds := by
      show (d :: ds).foldl (fun a d => a * b + d) 0 = _
      rw [List.foldl_cons, ih (0 * b + d)]
      ring
    rw [List.foldl_cons, ih (acc * b + d), hv, List.length_cons]
    ring

/- ### Theorems: character rendering and parsing -/

theorem hexVal_hexDigitChar : ∀ d, d < 16 → hexVal (hexDigitChar d) = some d := by decide

theorem decVal_decDigitChar : ∀ d, d < 10 → decVal (decDigitChar d) = some d := by decide

theorem digitVals_hex_map (ds : List Nat) (h : ∀ d ∈ ds, d < 16) :
    digitVals hexVal (ds.map hexDigitChar) = some ds := by
  induction ds with
  | nil => rfl
  | cons d ds ih =>
    have hd : d < 16 := h d (List.mem_cons_self _ _)
    have hds : ∀ x ∈ ds, x < 16 := fun x hx => h x (List.mem_cons_of_mem _ hx)
    simp only [List.map_cons, digitVals, hexVal_hexDigitChar d hd, ih hds]

theorem digitVals_dec_map (ds : List Nat) (h : ∀ d ∈ ds, d < 10) :
    digitVals decVal (ds.map decDigitChar) = some ds := by
  induction ds with
  | nil => rfl
  | cons d ds ih =>
    have hd : d < 10 := h d (List.mem_cons_self _ _)
    have hds : ∀ x ∈ ds, x < 10 := fun x hx => h x (List.mem_cons_of_mem _ hx)
    simp only [List.map_cons, digitVals, decVal_decDigitChar d hd, ih hds]

theorem parse_hextet_hexChars (g : Nat) (hg : g < 65536) :
    parse_hextet (hexChars g) = some g := by
  by_cases h0 : g = 0
  · subst h0; decide
  · have h1 : 1 ≤ g := Nat.one_le_iff_ne_zero.mpr h0
    have hmem : ∀ d ∈ digitsBE 16 g, d < 16 := by
      intro d hd
      rw [digitsBE, List.mem_reverse] at hd
      exact digitsRevCore_lt 16 (by omega) g g d hd
    have hlen4 : (digitsBE 16 g).length ≤ 4 := by
      rw [digitsBE, List.length_reverse]
      exact length_digitsRevCore_le 16 (by omega) g g 4 (by norm_num; omega)
    have hne : digitsBE 16 g ≠ [] := by
      rw [digitsBE]
      simp only [ne_eq, List.reverse_eq_nil_iff]
      exact digitsRevCore_ne_nil 16 g g h1 le_rfl
    have hval : valBE 16 (digitsBE 16 g) = g := by
      rw [digitsBE, valBE_reverse]
      exact valRev_digitsRevCore 16 (by omega) g g le_rfl
    rw [hexChars, if_neg h0, parse_hextet]
    have hlen0 : (List.map hexDigitChar (digitsBE 16 g)).length ≠ 0 := by
      simp only [List.length_map]
      exact fun hc => hne (List.length_eq_zero.mp hc)
    have hlen4m : ¬ 4 < (List.map hexDigitChar (digitsBE 16 g)).length := by
      simp only [List.length_map]; omega
    rw [if_neg (by push_neg; exact ⟨fun hc => hlen0 hc, by simpa using hlen4m⟩)]
    rw [digitVals_hex_map _ hmem]
    simp [hval]

theorem parseNetmaskChars_decChars (p : Nat) (hp : p ≤ 128) :
    parseNetmaskChars (decChars p) = some p := by
  by_cases h0 : p = 0
  · subst h0; decide
  · have h1 : 1 ≤ p := Nat.one_le_iff_ne_zero.mpr h0
    have hmem : ∀ d ∈ digitsBE 10 p, d < 10 := by
      intro d hd
      rw [digitsBE, List.mem_reverse] at hd
      exact digitsRevCore_lt 10 (by omega) p p d hd
    have hne : digitsBE 10 p ≠ [] := by
      rw [digitsBE]
      simp only [ne_eq, List.reverse_eq_nil_iff]
      exact digitsRevCore_ne_nil 10 p p h1 le_rfl
    have hval : valBE 10 (digitsBE 10 p) = p := by
      rw [digitsBE, valBE_reverse]
      exact valRev_digitsRevCore 10 (by omega) p p le_rfl
    rw [decChars, if_neg h0, parseNetmaskChars]
    have hlen0 : (List.map decDigitChar (digitsBE 10 p)).length ≠ 0 := by
      simp only [List.length_map]
      exact fun hc => hne (List.length_eq_zero.mp hc)
    rw [if_neg hlen0, digitVals_dec_map _ hmem]
    simp [hval, hp]

theorem hexChars_ne_nil (g : Nat) : hexChars g ≠ [] := by
  by_cases h0 : g = 0
  · subst h0; decide
  · rw [hexChars, if_neg h0]
    intro hc
    have := List.map_eq_nil.mp hc
    rw [digitsBE] at this
    have h2 := List.reverse_eq_nil_iff.mp this
    exact digitsRevCore_ne_nil 16 g g (Nat.one_le_iff_ne_zero.mpr h0) le_rfl h2

theorem hexDigitChar_ne : ∀ d, d < 16 → hexDigitChar d ≠ ':' ∧ hexDigitChar d ≠ '/' := by
  decide

theorem mem_hexChars_ne (g : Nat) (hg : g < 65536) :
    ∀ c ∈ hexChars g, c ≠ ':' ∧ c ≠ '/' := by
  intro c hc
  by_cases h0 : g = 0
  · subst h0
    have : c = decDigitChar 0 := by simpa [hexChars] using hc
    subst this; decide
  · rw [hexChars, if_neg h0] at hc
    obtain ⟨d, hd, hdc⟩ := List.mem_map.mp hc
    rw [digitsBE, List.mem_reverse] at hd
    have hdlt : d < 16 := digitsRevCore_lt 16 (by omega) g g d hd
    subst hdc
    exact hexDigitChar_ne d hdlt

theorem decDigitChar_ne_slash : ∀ d, d < 10 → decDigitChar d ≠ '/' := by decide

theorem mem_decChars_ne_slash (p : Nat) : ∀ c ∈ decChars p, c ≠ '/' := by
  intro c hc
  by_cases h0 : p = 0
  · subst h0
    have : c = decDigitChar 0 := by simpa [decChars] using hc
    subst this; decide
  · rw [decChars, if_neg h0] at hc
    obtain ⟨d, hd, hdc⟩ := List.mem_map.mp hc
    rw [digitsBE, List.mem_reverse] at hd
    have hdlt : d < 10 := digitsRevCore_lt 10 (by omega) p p d hd
    subst hdc
    exact decDigitChar_ne_slash d hdlt

theorem hexChars_eq_zeroHextet (g : Nat) (hg : g < 65536) :
    hexChars g = zeroHextet → g = 0 := by
  intro h
  have h1 := parse_hextet_hexChars g hg
  rw [h] at h1
  have h2 : parse_hextet zeroHextet = some 0 := by decide
  rw [h2] at h1
  exact (Option.some_inj.mp h1).symm

/- ### Theorems: split and join -/

theorem splitOnChar_ne_nil (sep : Char) (cs : List Char) : splitOnChar sep cs ≠ [] := by
  induction cs with
  | nil => simp [splitOnChar]
  | cons c cs ih =>
    rw [splitOnChar]
    by_cases h : c = sep
    · simp [h]
    · simp only [if_neg h]
      match hr : splitOnChar sep cs with
      | [] => exact absurd hr ih
      | g :: gs => simp

theorem splitOnChar_no_sep (sep : Char) (x : List Char) (h : sep ∉ x) :
    splitOnChar sep x = [x] := by
  induction x with
  | nil => rfl
  | cons c cs ih =>
    have hc : c ≠ sep := fun hc => h (hc ▸ List.mem_cons_self _ _)
    have hcs : sep ∉ cs := fun hm => h (List.mem_cons_of_mem _ hm)
    rw [splitOnChar]
    simp only [if_neg hc, ih hcs]

theorem splitOnChar_append_sep (sep : Char) (x r : List Char) (h : sep ∉ x) :
    splitOnChar sep (x ++ sep :: r) = x :: splitOnChar sep r := by
  induction x with
  | nil => simp [splitOnChar]
  | cons c cs ih =>
    have hc : c ≠ sep := fun hc => h (hc ▸ List.mem_cons_self _ _)
    have hcs : sep ∉ cs := fun hm => h (List.mem_cons_of_mem _ hm)
    rw [List.cons_append, splitOnChar]
    simp only [if_neg hc, ih hcs]

theorem splitOnChar_joinSep (sep : Char) :
    ∀ parts : List (List Char), parts ≠ [] → (∀ p ∈ parts, sep ∉ p) →
      splitOnChar sep (joinSep sep parts) = parts := by
  intro parts
  induction parts with
  | nil => intro h; exact absurd rfl h
  | cons x xs ih =>
    intro _ hmem
    match xs with
    | [] =>
      rw [joinSep]
      exact splitOnChar_no_sep sep x (hmem x (List.mem_cons_self _ _))
    | y :: ys =>
      rw [joinSep, splitOnChar_append_sep sep x _ (hmem x (List.mem_cons_self _ _))]
      rw [ih (by simp) (fun p hp => hmem p (List.mem_cons_of_mem _ hp))]

theorem mem_joinSep (sep : Char) :
    ∀ (ps : List (List Char)) (c : Char), c ∈ joinSep sep ps →
      c = sep ∨ ∃ p ∈ ps, c ∈ p := by
  intro ps
  induction ps with
  | nil => intro c hc; simp [joinSep] at hc
  | cons x xs ih =>
    intro c hc
    match xs with
    | [] =>
      rw [joinSep] at hc
      exact Or.inr ⟨x, List.mem_cons_self _ _, hc⟩
    | y :: ys =>
      rw [joinSep] at hc
      rcases List.mem_append.mp hc with h | h
      · exact Or.inr ⟨x, List.mem_cons_self _ _, h⟩
      · rcases List.mem_cons.mp h with h | h
        · exact Or.inl h
        · rcases ih c h with h | ⟨p, hp, hcp⟩
          · exact Or.inl h
          · exact Or.inr ⟨p, List.mem_cons_of_mem _ hp, hcp⟩

/- ### Theorems: `nth` -/

theorem nth_nil {α : Type} (i : Nat) : nth ([] : List α) i = none := by
  cases i <;> rfl

theorem nth_lt_length {α : Type} : ∀ (l : List α) (i : Nat) (x : α),
    nth l i = some x → i < l.length := by
  intro l
  induction l with
  | nil => intro i x h; simp [nth] at h
  | cons a l ih =>
    intro i x h
    match i with
    | 0 => simp
    | n + 1 =>
      rw [nth] at h
      have := ih n x h
      simp only [List.length_cons]
      omega

theorem nth_append_left {α : Type} : ∀ (xs ys : List α) (i : Nat), i < xs.length →
    nth (xs ++ ys) i = nth xs i := by
  intro xs
  induction xs with
  | nil => intro ys i h; simp at h
  | cons x xs ih =>
    intro ys i h
    match i with
    | 0 => rfl
    | n + 1 =>
      rw [List.cons_append, nth, nth]
      exact ih ys n (by simp at h; omega)

theorem nth_append_right {α : Type} : ∀ (xs ys : List α) (j : Nat),
    nth (xs ++ ys) (xs.length + j) = nth ys j := by
  intro xs
  induction xs with
  | nil => intro ys j; simp [nth]
  | cons x xs ih =>
    intro ys j
    have : (x :: xs).length + j = (xs.length + j) + 1 := by simp; omega
    rw [this, List.cons_append, nth, ih]

theorem nth_mem {α : Type} : ∀ (l : List α) (i : Nat) (x : α), nth l i = some x → x ∈ l := by
  intro l
  induction l with
  | nil => intro i x h; simp [nth] at h
  | cons a l ih =>
    intro i x h
    match i with
    | 0 => rw [nth] at h; exact (Option.some_inj.mp h) ▸ List.mem_cons_self _ _
    | n + 1 => rw [nth] at h; exact List.mem_cons_of_mem _ (ih n x h)

theorem nth_ext {α : Type} : ∀ (l1 l2 : List α), (∀ i, nth l1 i = nth l2 i) → l1 = l2 := by
  intro l1
  induction l1 with
  | nil =>
    intro l2 h
    match l2 with
    | [] => rfl
    | y :: ys => exact absurd (h 0).symm (by simp [nth])
  | cons x xs ih =>
    intro l2 h
    match l2 with
    | [] => exact absurd (h 0) (by simp [nth])
    | y :: ys =>
      have h0 : x = y := Option.some_inj.mp (h 0)
      have hr : xs = ys := ih ys fun i => h (i + 1)
      rw [h0, hr]

theorem nth_replicate {α : Type} (x : α) : ∀ n j, j < n →
    nth (List.replicate n x) j = some x := by
  intro n
  induction n with
  | zero => intro j h; omega
  | succ n ih =>
    intro j h
    match j with
    | 0 => rfl
    | m + 1 => rw [List.replicate_succ, nth]; exact ih m (by omega)

theorem nth_drop {α : Type} : ∀ (l : List α) (s j : Nat), nth (l.drop s) j = nth l (s + j) := by
  intro l
  induction l with
  | nil => intro s j; rw [List.drop_nil, nth_nil, nth_nil]
  | cons x xs ih =>
    intro s j
    match s with
    | 0 => simp
    | n + 1 =>
      rw [List.drop_succ_cons]
      have : n + 1 + j = (n + j) + 1 := by omega
      rw [this, nth, ih]

theorem nth_take {α : Type} : ∀ (l : List α) (n j : Nat), j < n →
    nth (l.take n) j = nth l j := by
  intro l
  induction l with
  | nil => intro n j h; simp [List.take_nil]
  | cons x xs ih =>
    intro n j h
    match n, j with
    | n + 1, 0 => rfl
    | n + 1, m + 1 => rw [List.take_succ_cons, nth, nth]; exact ih n m (by omega)

/- ### Theorems: 16-bit groups -/

theorem length_toGroupsAux : ∀ k a, (toGroupsAux k a).length = k := by
  intro k
  induction k with
  | zero => intro a; rfl
  | succ k ih =>
    intro a
    rw [toGroupsAux]
    simp [ih]

theorem toGroupsAux_lt : ∀ k a g, g ∈ toGroupsAux k a → g < 65536 := by
  intro k
  induction k with
  | zero => intro a g hg; simp [toGroupsAux] at hg
  | succ k ih =>
    intro a g hg
    rw [toGroupsAux] at hg
    rcases List.mem_append.mp hg with h | h
    · exact ih _ g h
    · have : g = a % 65536 := by simpa using h
      subst this
      exact Nat.mod_lt _ (by omega)

theorem fromGroups_eq_valBE (gs : List Nat) : fromGroups gs = valBE 65536 gs := rfl

theorem fromGroups_append (xs ys : List Nat) :
    fromGroups (xs ++ ys) = fromGroups xs * 65536 ^ ys.length + fromGroups ys := by
  rw [fromGroups, List.foldl_append, foldl_base_acc]
  rfl

theorem fromGroups_toGroupsAux : ∀ k a, a < 65536 ^ k → fromGroups (toGroupsAux k a) = a := by
  intro k
  induction k with
  | zero =>
    intro a ha
    have : a = 0 := by simpa using ha
    subst this; rfl
  | succ k ih =>
    intro a ha
    have hdiv : a / 65536 < 65536 ^ k := by
      rw [Nat.div_lt_iff_lt_mul (by omega)]
      calc a < 65536 ^ (k + 1) := ha
        _ = 65536 ^ k * 65536 := by rw [Nat.pow_succ]
    rw [toGroupsAux, fromGroups_append, ih _ hdiv]
    simp [fromGroups, valBE]
    rw [Nat.mul_comm]
    exact Nat.div_add_mod _ _

theorem fromGroups_replicate_zero : ∀ n, fromGroups (List.replicate n 0) = 0 := by
  intro n
  induction n with
  | zero => rfl
  | succ n ih =>
    rw [List.replicate_succ, fromGroups]
    simpa [fromGroups] using ih

theorem length_toGroups (a : Nat) : (toGroups a).length = 8 :=
  length_toGroupsAux 8 a

theorem toGroups_lt (a : Nat) : ∀ g ∈ toGroups a, g < 65536 :=
  fun g hg => toGroupsAux_lt 8 a g hg

theorem fromGroups_toGroups (a : Nat) (ha : a < 2 ^ 128) : fromGroups (toGroups a) = a := by
  have h : a < 65536 ^ 8 := by norm_num at ha ⊢; omega
  exact fromGroups_toGroupsAux 8 a h

/- ### Theorems: the best zero run -/

theorem zeroSlice_zero (l : List (List Char)) (s : Nat) : ZeroSlice l s 0 :=
  fun j hj => absurd hj (by omega)

theorem nth_of_drop {α : Type} : ∀ (l : List α) (i : Nat) (x : α) (xs : List α),
    l.drop i = x :: xs → nth l i = some x ∧ l.drop (i + 1) = xs := by
  intro l
  induction l with
  | nil => intro i x xs h; rw [List.drop_nil] at h; exact absurd h (by simp)
  | cons a l ih =>
    intro i x xs h
    match i with
    | 0 =>
      simp only [List.drop_zero] at h
      cases h
      exact ⟨rfl, by simp⟩
    | n + 1 =>
      rw [List.drop_succ_cons] at h
      obtain ⟨h1, h2⟩ := ih n x xs h
      refine ⟨h1, ?_⟩
      rw [List.drop_succ_cons]
      exact h2

theorem bestRunFold_spec :
    ∀ (t : List (List Char)) (l : List (List Char)) (i cs cl bs bl : Nat),
      l.drop i = t →
      (0 < cl → cs + cl = i) →
      ZeroSlice l cs cl →
      ZeroSlice l bs bl →
      bs + bl ≤ l.length →
      ZeroSlice l (bestRunFold t i cs cl bs bl).1 (bestRunFold t i cs cl bs bl).2 ∧
        (bestRunFold t i cs cl bs bl).1 + (bestRunFold t i cs cl bs bl).2 ≤ l.length := by
  intro t
  induction t with
  | nil =>
    intro l i cs cl bs bl _ _ _ hbz hbb
    exact ⟨hbz, hbb⟩
  | cons h t ih =>
    intro l i cs cl bs bl hdrop hci hcz hbz hbb
    obtain ⟨hnth, hdrop2⟩ := nth_of_drop l i h t hdrop
    have hilen : i < l.length := nth_lt_length l i h hnth
    by_cases hz : h = zeroHextet
    · have hcz2 : ZeroSlice l (if cl = 0 then i else cs) (cl + 1) := by
        intro j hj
        by_cases hcl0 : cl = 0
        · simp only [if_pos hcl0]
          have : j = 0 := by omega
          subst this
          simpa [hz] using hnth
        · simp only [if_neg hcl0]
          rcases Nat.lt_or_ge j cl with hlt | hge
          · exact hcz j hlt
          · have hj2 : j = cl := by omega
            have hcsi : cs + cl = i := hci (by omega)
            rw [hj2, hcsi]
            simpa [hz] using hnth
      have hci2 : 0 < cl + 1 → (if cl = 0 then i else cs) + (cl + 1) = i + 1 := by
        intro _
        by_cases hcl0 : cl = 0
        · simp [hcl0]
        · simp only [if_neg hcl0]
          have := hci (by omega)
          omega
      have hbound2 : (if cl = 0 then i else cs) + (cl + 1) ≤ l.length := by
        rw [hci2 (by omega)]
        omega
      rw [bestRunFold]
      simp only [if_pos hz]
      by_cases hup : bl < cl + 1
      · simp only [if_pos hup]
        exact ih l (i + 1) _ _ _ _ hdrop2 hci2 hcz2 hcz2 hbound2
      · simp only [if_neg hup]
        exact ih l (i + 1) _ _ _ _ hdrop2 hci2 hcz2 hbz hbb
    · rw [bestRunFold]
      simp only [if_neg hz]
      exact ih l (i + 1) 0 0 bs bl hdrop2 (by omega) (zeroSlice_zero l 0) hbz hbb

theorem bestRun_spec (l : List (List Char)) :
    ZeroSlice l (bestRun l).1 (bestRun l).2 ∧ (bestRun l).1 + (bestRun l).2 ≤ l.length := by
  exact bestRunFold_spec l l 0 0 0 0 0 rfl (by omega) (zeroSlice_zero l 0)
    (zeroSlice_zero l 0) (by omega)

/- ### Theorems: parsing reconstructs compressed hextets -/

theorem filter_range_eq_nil (p : Nat → Bool) (n : Nat) (h : ∀ i, i < n → p i = false) :
    (List.range n).filter p = [] := by
  induction n with
  | zero => rfl
  | succ n ih =>
    rw [List.range_succ, List.filter_append, ih (fun i hi => h i (by omega))]
    simp [h n (by omega)]

theorem filter_range_eq_single (p : Nat → Bool) : ∀ (n k : Nat), k < n →
    (∀ i, i < n → (p i = true ↔ i = k)) →
    (List.range n).filter p = [k] := by
  intro n
  induction n with
  | zero => intro k hk; omega
  | succ n ih =>
    intro k hk hp
    rw [List.range_succ, List.filter_append]
    by_cases hkn : k = n
    · subst hkn
      have h1 : (List.range k).filter p = [] := by
        apply filter_range_eq_nil
        intro i hi
        cases hpi : p i
        · rfl
        · exact absurd ((hp i (by omega)).mp hpi) (by omega)
      rw [h1]
      simp [(hp k (by omega)).mpr rfl]
    · have h2 : p n = false := by
        cases hpn : p n
        · rfl
        · exact absurd ((hp n (by omega)).mp hpn) (by omega)
      rw [ih k (by omega) (fun i hi => hp i (by omega))]
      simp [h2]

theorem foldHextets_map (gs : List Nat) (h : ∀ g ∈ gs, g < 65536) :
    ∀ acc, foldHextets acc (gs.map hexChars) =
      some (gs.foldl (fun a g => a * 65536 + g) acc) := by
  induction gs with
  | nil => intro acc; rfl
  | cons g gs ih =>
    intro acc
    simp only [List.map_cons, foldHextets,
      parse_hextet_hexChars g (h g (List.mem_cons_self _ _)), List.foldl_cons]
    exact ih (fun x hx => h x (List.mem_cons_of_mem _ hx)) (acc * 65536 + g)

theorem foldHextets_fromGroups (gs : List Nat) (h : ∀ g ∈ gs, g < 65536) :
    foldHextets 0 (gs.map hexChars) = some (fromGroups gs) :=
  foldHextets_map gs h 0

theorem nth_exists {α : Type} : ∀ (l : List α) (i : Nat), i < l.length → ∃ x, nth l i = some x := by
  intro l
  induction l with
  | nil => intro i h; simp at h
  | cons a l ih =>
    intro i h
    match i with
    | 0 => exact ⟨a, rfl⟩
    | n + 1 => exact ih n (by simp at h; omega)

theorem innerEmptyIdxs_nil (parts : List (List Char))
    (h : ∀ i, ¬ nth parts i = some ([] : List Char)) : innerEmptyIdxs parts = [] := by
  apply filter_range_eq_nil
  intro i _
  simp [h i]

theorem fromGroups_split (preG postG : List Nat) (bl : Nat)
    (hlen : preG.length + bl + postG.length = 8) :
    fromGroups (preG ++ (List.replicate bl 0 ++ postG)) =
      fromGroups preG * 65536 ^ (8 - preG.length) + fromGroups postG := by
  rw [fromGroups_append, fromGroups_append, fromGroups_replicate_zero]
  have h1 : (List.replicate bl 0 ++ postG).length = bl + postG.length := by
    simp
  rw [h1]
  have h2 : 8 - preG.length = bl + postG.length := by omega
  rw [h2]
  ring

theorem parse_parts_mid (A B : List (List Char))
    (hA : ∀ p ∈ A, p ≠ ([] : List Char)) (hB : ∀ p ∈ B, p ≠ ([] : List Char))
    (hAne : A ≠ []) (hBne : B ≠ [])
    (hlen : A.length + B.length ≤ 6)
    (vA vB : Nat)
    (hvA : foldHextets 0 A = some vA) (hvB : foldHextets 0 B = some vB) :
    parse_parts (A ++ [([] : List Char)] ++ B) =
      some (vA * 65536 ^ (8 - A.length) + vB) := by
  have hAl : 0 < A.length := List.length_pos.mpr hAne
  have hBl : 0 < B.length := List.length_pos.mpr hBne
  have hlenparts : (A ++ [([] : List Char)] ++ B).length = A.length + 1 + B.length := by
    simp only [List.length_append, List.length_cons, List.length_nil]
  have hnthA : ∀ i, i < A.length →
      ∃ x, nth (A ++ [([] : List Char)] ++ B) i = some x ∧ x ≠ [] := by
    intro i hi
    obtain ⟨x, hx⟩ := nth_exists A i hi
    refine ⟨x, ?_, hA x (nth_mem A i x hx)⟩
    rw [nth_append_left _ _ _ (by simp; omega), nth_append_left _ _ _ hi]
    exact hx
  have hmid : nth (A ++ [([] : List Char)] ++ B) A.length = some ([] : List Char) := by
    rw [nth_append_left _ _ _ (by simp)]
    have := nth_append_right A [([] : List Char)] 0
    simpa using this
  have hnthB : ∀ j, nth (A ++ [([] : List Char)] ++ B) (A.length + 1 + j) = nth B j := by
    intro j
    have h1 : (A ++ [([] : List Char)]).length = A.length + 1 := by simp
    have h2 := nth_append_right (A ++ [([] : List Char)]) B j
    rw [h1] at h2
    exact h2
  have hinner : innerEmptyIdxs (A ++ [([] : List Char)] ++ B) = [A.length] := by
    apply filter_range_eq_single _ _ _ (by rw [hlenparts]; omega)
    intro i hi
    rw [hlenparts] at hi
    simp only [Bool.and_eq_true, decide_eq_true_eq]
    constructor
    · rintro ⟨⟨h1i, h2i⟩, h3i⟩
      by_contra hne2
      rcases Nat.lt_or_ge i A.length with hlt | hge
      · obtain ⟨x, hx, hxne⟩ := hnthA i hlt
        rw [hx] at h3i
        exact hxne (Option.some_inj.mp h3i)
      · obtain ⟨j, hj⟩ : ∃ j, i = A.length + 1 + j := ⟨i - A.length - 1, by omega⟩
        subst hj
        rw [hnthB j] at h3i
        obtain ⟨x, hx⟩ := nth_exists B j (by omega)
        rw [hx] at h3i
        exact (hB x (nth_mem B j x hx)) (Option.some_inj.mp h3i)
    · intro hik
      subst hik
      exact ⟨⟨by omega, by rw [hlenparts]; omega⟩, hmid⟩
  have h0f : ¬ nth (A ++ [([] : List Char)] ++ B) 0 = some ([] : List Char) := by
    obtain ⟨x, hx, hxne⟩ := hnthA 0 hAl
    rw [hx]
    intro hc
    exact hxne (Option.some_inj.mp hc)
  have hlastf : ¬ nth (A ++ [([] : List Char)] ++ B)
      ((A ++ [([] : List Char)] ++ B).length - 1) = some ([] : List Char) := by
    rw [hlenparts]
    have h3 : A.length + 1 + B.length - 1 = A.length + 1 + (B.length - 1) := by omega
    rw [h3, hnthB]
    obtain ⟨x, hx⟩ := nth_exists B (B.length - 1) (by omega)
    rw [hx]
    intro hc
    exact (hB x (nth_mem _ _ _ hx)) (Option.some_inj.mp hc)
  have htake : (A ++ [([] : List Char)] ++ B).take A.length = A := by
    rw [List.append_assoc]
    have := List.take_left A ([([] : List Char)] ++ B)
    exact this
  have hdropB : (A ++ [([] : List Char)] ++ B).drop (A.length + 1) = B := by
    have h1 : (A ++ [([] : List Char)]).length = A.length + 1 := by simp
    rw [← h1]
    exact List.drop_left _ _
  have hc1 : ¬ ((A ++ [([] : List Char)] ++ B).length < 3) := by rw [hlenparts]; omega
  have hc2 : ¬ (9 < (A ++ [([] : List Char)] ++ B).length) := by rw [hlenparts]; omega
  have hc3 : ¬ (nth (A ++ [([] : List Char)] ++ B) 0 = some ([] : List Char) ∧
      A.length ≠ 1) := fun hc => h0f hc.1
  have hc4 : ¬ (nth (A ++ [([] : List Char)] ++ B)
      ((A ++ [([] : List Char)] ++ B).length - 1) = some ([] : List Char) ∧
      (A ++ [([] : List Char)] ++ B).length - A.length - 1 ≠ 1) := fun hc => hlastf hc.1
  have hc5 : ¬ (7 < A.length + ((A ++ [([] : List Char)] ++ B).length - A.length - 1)) := by
    rw [hlenparts]; omega
  have hidx : (A ++ [([] : List Char)] ++ B).length -
      ((A ++ [([] : List Char)] ++ B).length - A.length - 1) = A.length + 1 := by
    rw [hlenparts]; omega
  rw [parse_parts]
  simp only [if_neg hc1, if_neg hc2, hinner, if_neg hc3, if_neg hc4, if_neg h0f,
    if_neg hlastf, if_neg hc5, hidx, htake, hdropB, hvA, hvB]

theorem parse_parts_left (B : List (List Char))
    (hB : ∀ p ∈ B, p ≠ ([] : List Char)) (hBne : B ≠ []) (hlen : B.length ≤ 6)
    (vB : Nat) (hvB : foldHextets 0 B = some vB) :
    parse_parts (([] : List Char) :: ([] : List Char) :: B) = some vB := by
  have hBl : 0 < B.length := List.length_pos.mpr hBne
  have hlenparts : (([] : List Char) :: ([] : List Char) :: B).length = B.length + 2 := by
    simp only [List.length_cons]
  have hnthB : ∀ j, nth (([] : List Char) :: ([] : List Char) :: B) (j + 2) = nth B j := by
    intro j; rfl
  have hinner : innerEmptyIdxs (([] : List Char) :: ([] : List Char) :: B) = [1] := by
    apply filter_range_eq_single _ _ _ (by rw [hlenparts]; omega)
    intro i hi
    rw [hlenparts] at hi
    simp only [Bool.and_eq_true, decide_eq_true_eq]
    constructor
    · rintro ⟨⟨h1i, h2i⟩, h3i⟩
      by_contra hne2
      obtain ⟨j, hj⟩ : ∃ j, i = j + 2 := ⟨i - 2, by omega⟩
      subst hj
      rw [hnthB j] at h3i
      obtain ⟨x, hx⟩ := nth_exists B j (by omega)
      rw [hx] at h3i
      exact (hB x (nth_mem B j x hx)) (Option.some_inj.mp h3i)
    · intro hik
      subst hik
      exact ⟨⟨by omega, by rw [hlenparts]; omega⟩, rfl⟩
  have h0t : nth (([] : List Char) :: ([] : List Char) :: B) 0 = some ([] : List Char) := rfl
  have hlastf : ¬ nth (([] : List Char) :: ([] : List Char) :: B)
      ((([] : List Char) :: ([] : List Char) :: B).length - 1) = some ([] : List Char) := by
    rw [hlenparts]
    have h3 : B.length + 2 - 1 = (B.length - 1) + 2 := by omega
    rw [h3, hnthB]
    obtain ⟨x, hx⟩ := nth_exists B (B.length - 1) (by omega)
    rw [hx]
    intro hc
    exact (hB x (nth_mem _ _ _ hx)) (Option.some_inj.mp hc)
  have hc1 : ¬ ((([] : List Char) :: ([] : List Char) :: B).length < 3) := by
    rw [hlenparts]; omega
  have hc2 : ¬ (9 < (([] : List Char) :: ([] : List Char) :: B).length) := by
    rw [hlenparts]; omega
  have hc3 : ¬ (nth (([] : List Char) :: ([] : List Char) :: B) 0 =
      some ([] : List Char) ∧ (1 : Nat) ≠ 1) := fun hc => hc.2 rfl
  have hc4 : ¬ (nth (([] : List Char) :: ([] : List Char) :: B)
      ((([] : List Char) :: ([] : List Char) :: B).length - 1) = some ([] : List Char) ∧
      (([] : List Char) :: ([] : List Char) :: B).length - 1 - 1 ≠ 1) := fun hc => hlastf hc.1
  have hc5 : ¬ (7 < 0 + ((([] : List Char) :: ([] : List Char) :: B).length - 1 - 1)) := by
    rw [hlenparts]; omega
  have hidx : (([] : List Char) :: ([] : List Char) :: B).length -
      ((([] : List Char) :: ([] : List Char) :: B).length - 1 - 1) = 2 := by
    rw [hlenparts]; omega
  have hdropB : (([] : List Char) :: ([] : List Char) :: B).drop 2 = B := rfl
  rw [parse_parts]
  simp only [if_neg hc1, if_neg hc2, hinner, if_neg hc3, if_neg hc4, if_pos h0t,
    if_neg hlastf, if_neg hc5, hidx, List.take_zero, hdropB, hvB, foldHextets]
  norm_num

theorem parse_parts_right (A : List (List Char))
    (hA : ∀ p ∈ A, p ≠ ([] : List Char)) (hAne : A ≠ []) (hlen : A.length ≤ 6)
    (vA : Nat) (hvA : foldHextets 0 A = some vA) :
    parse_parts (A ++ [([] : List Char)] ++ [([] : List Char)]) =
      some (vA * 65536 ^ (8 - A.length)) := by
  have hAl : 0 < A.length := List.length_pos.mpr hAne
  have hlenparts : (A ++ [([] : List Char)] ++ [([] : List Char)]).length = A.length + 2 := by
    simp only [List.length_append, List.length_cons, List.length_nil]
  have hnthA : ∀ i, i < A.length →
      ∃ x, nth (A ++ [([] : List Char)] ++ [([] : List Char)]) i = some x ∧ x ≠ [] := by
    intro i hi
    obtain ⟨x, hx⟩ := nth_exists A i hi
    refine ⟨x, ?_, hA x (nth_mem A i x hx)⟩
    rw [nth_append_left _ _ _ (by simp; omega), nth_append_left _ _ _ hi]
    exact hx
  have hmid : nth (A ++ [([] : List Char)] ++ [([] : List Char)]) A.length =
      some ([] : List Char) := by
    rw [nth_append_left _ _ _ (by simp)]
    have := nth_append_right A [([] : List Char)] 0
    simpa using this
  have hlast : nth (A ++ [([] : List Char)] ++ [([] : List Char)]) (A.length + 1) =
      some ([] : List Char) := by
    have h1 : (A ++ [([] : List Char)]).length = A.length + 1 := by simp
    have h2 := nth_append_right (A ++ [([] : List Char)]) [([] : List Char)] 0
    rw [h1] at h2
    simpa using h2
  have hinner : innerEmptyIdxs (A ++ [([] : List Char)] ++ [([] : List Char)]) =
      [A.length] := by
    apply filter_range_eq_single _ _ _ (by rw [hlenparts]; omega)
    intro i hi
    rw [hlenparts] at hi
    simp only [Bool.and_eq_true, decide_eq_true_eq]
    constructor
    · rintro ⟨⟨h1i, h2i⟩, h3i⟩
      by_contra hne2
      rcases Nat.lt_or_ge i A.length with hlt | hge
      · obtain ⟨x, hx, hxne⟩ := hnthA i hlt
        rw [hx] at h3i
        exact hxne (Option.some_inj.mp h3i)
      · omega
    · intro hik
      subst hik
      exact ⟨⟨by omega, by rw [hlenparts]; omega⟩, hmid⟩
  have h0f : ¬ nth (A ++ [([] : List Char)] ++ [([] : List Char)]) 0 =
      some ([] : List Char) := by
    obtain ⟨x, hx, hxne⟩ := hnthA 0 hAl
    rw [hx]
    intro hc
    exact hxne (Option.some_inj.mp hc)
  have hlastt : nth (A ++ [([] : List Char)] ++ [([] : List Char)])
      ((A ++ [([] : List Char)] ++ [([] : List Char)]).length - 1) =
      some ([] : List Char) := by
    rw [hlenparts]
    have h3 : A.length + 2 - 1 = A.length + 1 := by omega
    rw [h3]
    exact hlast
  have harith1 : (A ++ [([] : List Char)] ++ [([] : List Char)]).length - A.length - 1 = 1 := by
    rw [hlenparts]; omega
  have hc1 : ¬ ((A ++ [([] : List Char)] ++ [([] : List Char)]).length < 3) := by
    rw [hlenparts]; omega
  have hc2 : ¬ (9 < (A ++ [([] : List Char)] ++ [([] : List Char)]).length) := by
    rw [hlenparts]; omega
  have hc3 : ¬ (nth (A ++ [([] : List Char)] ++ [([] : List Char)]) 0 =
      some ([] : List Char) ∧ A.length ≠ 1) := fun hc => h0f hc.1
  have hc4 : ¬ (nth (A ++ [([] : List Char)] ++ [([] : List Char)])
      ((A ++ [([] : List Char)] ++ [([] : List Char)]).length - 1) =
      some ([] : List Char) ∧
      (A ++ [([] : List Char)] ++ [([] : List Char)]).length - A.length - 1 ≠ 1) :=
    fun hc => hc.2 harith1
  have hc5 : ¬ (7 < A.length + 0) := by omega
  have hidx : (A ++ [([] : List Char)] ++ [([] : List Char)]).length - 0 =
      (A ++ [([] : List Char)] ++ [([] : List Char)]).length := by omega
  have htake : (A ++ [([] : List Char)] ++ [([] : List Char)]).take A.length = A := by
    rw [List.append_assoc]
    exact List.take_left A _
  have hdropnil : (A ++ [([] : List Char)] ++ [([] : List Char)]).drop
      (A ++ [([] : List Char)] ++ [([] : List Char)]).length = [] := List.drop_length _
  rw [parse_parts]
  simp only [if_neg hc1, if_neg hc2, hinner, if_neg hc3, if_neg hc4, if_neg h0f,
    if_pos hlastt, if_neg hc5, hidx, htake, hdropnil, hvA, foldHextets]
  norm_num

theorem parse_parts_all : parse_parts [([] : List Char), [], []] = some 0 := by decide

theorem nth_map {α β : Type} (f : α → β) : ∀ (l : List α) (i : Nat),
    nth (l.map f) i = (nth l i).map f := by
  intro l
  induction l with
  | nil => intro i; rw [List.map_nil, nth_nil, nth_nil]; rfl
  | cons x xs ih =>
    intro i
    match i with
    | 0 => rfl
    | n + 1 => rw [List.map_cons, nth, nth, ih]

theorem nth_ge_length {α : Type} : ∀ (l : List α) (i : Nat), l.length ≤ i → nth l i = none := by
  intro l
  induction l with
  | nil => intro i _; exact nth_nil i
  | cons x xs ih =>
    intro i h
    match i with
    | 0 => simp at h
    | n + 1 =>
      rw [nth]
      exact ih n (by simp at h; omega)

theorem parse_parts_full (gs : List Nat) (hlen : gs.length = 8)
    (hg : ∀ g ∈ gs, g < 65536) :
    parse_parts (gs.map hexChars) = some (fromGroups gs) := by
  have hne : ∀ i, ¬ nth (gs.map hexChars) i = some ([] : List Char) := by
    intro i hc
    have hmem := nth_mem _ _ _ hc
    obtain ⟨g, _, hgc⟩ := List.mem_map.mp hmem
    exact hexChars_ne_nil g hgc
  have hinner : innerEmptyIdxs (gs.map hexChars) = [] := innerEmptyIdxs_nil _ hne
  have hlenm : (gs.map hexChars).length = 8 := by simp [hlen]
  have hc1 : ¬ ((gs.map hexChars).length < 3) := by rw [hlenm]; omega
  have hc2 : ¬ (9 < (gs.map hexChars).length) := by rw [hlenm]; omega
  have hc8 : ¬ ((gs.map hexChars).length ≠ 8) := fun hc => hc hlenm
  rw [parse_parts]
  simp only [if_neg hc1, if_neg hc2, hinner, if_neg hc8, if_neg (hne 0),
    if_neg (hne ((gs.map hexChars).length - 1)), foldHextets_fromGroups gs hg]

theorem parse_parts_compressed (preG postG : List Nat) (bl : Nat)
    (hpre : ∀ g ∈ preG, g < 65536) (hpost : ∀ g ∈ postG, g < 65536)
    (hbl : 2 ≤ bl) (hlen : preG.length + bl + postG.length = 8) :
    parse_parts
      ((if preG.map hexChars = [] then [([] : List Char)] else preG.map hexChars) ++
        [([] : List Char)] ++
        (if postG.map hexChars = [] then [([] : List Char)] else postG.map hexChars)) =
      some (fromGroups preG * 65536 ^ (8 - preG.length) + fromGroups postG) := by
  have hmapne : ∀ (gs : List Nat), ∀ p ∈ gs.map hexChars, p ≠ ([] : List Char) := by
    intro gs p hp
    obtain ⟨g, _, hgc⟩ := List.mem_map.mp hp
    rw [← hgc]
    exact hexChars_ne_nil g
  by_cases hpre0 : preG = []
  · by_cases hpost0 : postG = []
    · subst hpre0; subst hpost0
      decide
    · subst hpre0
      have hmne : postG.map hexChars ≠ [] :=
        fun hc => hpost0 (List.map_eq_nil_iff.mp hc)
      show parse_parts ([([] : List Char)] ++ [([] : List Char)] ++
          (if postG.map hexChars = [] then [([] : List Char)] else postG.map hexChars)) =
        some (fromGroups ([] : List Nat) * 65536 ^ (8 - List.length ([] : List Nat)) +
          fromGroups postG)
      rw [if_neg hmne]
      have hsh : ([([] : List Char)] ++ [([] : List Char)] ++ postG.map hexChars) =
          ([] : List Char) :: ([] : List Char) :: postG.map hexChars := by simp
      rw [hsh, parse_parts_left (postG.map hexChars) (hmapne postG) hmne
        (by simp only [List.length_map]; simp at hlen; omega)
        (fromGroups postG) (foldHextets_fromGroups postG hpost)]
      have h0 : fromGroups ([] : List Nat) = 0 := rfl
      rw [h0]
      simp
  · have hpne : preG.map hexChars ≠ [] := fun hc => hpre0 (List.map_eq_nil_iff.mp hc)
    by_cases hpost0 : postG = []
    · subst hpost0
      show parse_parts ((if preG.map hexChars = [] then [([] : List Char)]
          else preG.map hexChars) ++ [([] : List Char)] ++ [([] : List Char)]) =
        some (fromGroups preG * 65536 ^ (8 - preG.length) + fromGroups ([] : List Nat))
      rw [if_neg hpne]
      rw [parse_parts_right (preG.map hexChars) (hmapne preG) hpne
        (by simp only [List.length_map]; simp at hlen; omega)
        (fromGroups preG) (foldHextets_fromGroups preG hpre)]
      have h0 : fromGroups ([] : List Nat) = 0 := rfl
      rw [h0]
      simp only [List.length_map]
      simp
    · have hmne : postG.map hexChars ≠ [] :=
        fun hc => hpost0 (List.map_eq_nil_iff.mp hc)
      rw [if_neg hpne, if_neg hmne]
      rw [parse_parts_mid (preG.map hexChars) (postG.map hexChars) (hmapne preG)
        (hmapne postG) hpne hmne
        (by simp only [List.length_map]; omega)
        (fromGroups preG) (fromGroups postG)
        (foldHextets_fromGroups preG hpre) (foldHextets_fromGroups postG hpost)]
      simp only [List.length_map]

theorem parse_parts_compressHextets (a : Nat) (ha : a < 2 ^ 128) :
    parse_parts (compressHextets (hextets a)) = some a := by
  obtain ⟨hzs, hbb⟩ := bestRun_spec (hextets a)
  rcases hbr : bestRun (hextets a) with ⟨bs, bl⟩
  rw [hbr] at hzs hbb
  simp only at hzs hbb
  have hlenh : (hextets a).length = 8 := by
    rw [hextets, List.length_map, length_toGroups]
  rw [hlenh] at hbb
  rw [compressHextets]
  simp only [hbr]
  by_cases hbl1 : bl ≤ 1
  · rw [if_pos hbl1]
    rw [hextets]
    rw [parse_parts_full (toGroups a) (length_toGroups a) (toGroups_lt a)]
    rw [fromGroups_toGroups a ha]
  · rw [if_neg hbl1]
    have hbl2 : 2 ≤ bl := by omega
    have hgslen : (toGroups a).length = 8 := length_toGroups a
    have hpreG : (hextets a).take bs = ((toGroups a).take bs).map hexChars := by
      rw [hextets, List.map_take]
    have hpostG : (hextets a).drop (bs + bl) =
        ((toGroups a).drop (bs + bl)).map hexChars := by
      rw [hextets, List.map_drop]
    have hmid : ((toGroups a).drop bs).take bl = List.replicate bl 0 := by
      apply nth_ext
      intro i
      rcases Nat.lt_or_ge i bl with hlt | hge
      · rw [nth_take _ _ _ hlt, nth_drop]
        have hz := hzs i hlt
        rw [hextets, nth_map] at hz
        obtain ⟨g, hg⟩ := nth_exists (toGroups a) (bs + i) (by rw [hgslen]; omega)
        rw [hg] at hz ⊢
        simp only [Option.map] at hz
        have hglt : g < 65536 := toGroups_lt a g (nth_mem _ _ _ hg)
        have hg0 : g = 0 :=
          hexChars_eq_zeroHextet g hglt (Option.some_inj.mp hz)
        rw [hg0, nth_replicate _ _ _ hlt]
      · have h2 : (((toGroups a).drop bs).take bl).length = bl := by
          rw [List.length_take, List.length_drop, hgslen]
          omega
        rw [nth_ge_length _ _ (by rw [h2]; omega),
          nth_ge_length _ _ (by simp only [List.length_replicate]; omega)]
    have hdecomp : toGroups a =
        (toGroups a).take bs ++ (List.replicate bl 0 ++ (toGroups a).drop (bs + bl)) := by
      rw [← hmid]
      conv_lhs => rw [← List.take_append_drop bs (toGroups a)]
      congr 1
      conv_lhs => rw [← List.take_append_drop bl ((toGroups a).drop bs)]
      congr 1
      rw [List.drop_drop]
    have hlens : ((toGroups a).take bs).length + bl + ((toGroups a).drop (bs + bl)).length
        = 8 := by
      rw [List.length_take, List.length_drop, hgslen]
      omega
    rw [hpreG, hpostG,
      parse_parts_compressed ((toGroups a).take bs) ((toGroups a).drop (bs + bl)) bl
        (fun g hg => toGroups_lt a g (List.mem_of_mem_take hg))
        (fun g hg => toGroups_lt a g (List.mem_of_mem_drop hg))
        hbl2 hlens]
    rw [← fromGroups_split _ _ bl hlens, ← hdecomp, fromGroups_toGroups a ha]

theorem compressHextets_hextets_ne_nil (a : Nat) : compressHextets (hextets a) ≠ [] := by
  rw [compressHextets]
  by_cases hbl1 : (bestRun (hextets a)).2 ≤ 1
  · rw [if_pos hbl1, hextets]
    intro hc
    have h8 : ((toGroups a).map hexChars).length = 8 := by
      rw [List.length_map, length_toGroups]
    rw [hc] at h8
    simp at h8
  · rw [if_neg hbl1]
    simp

theorem mem_compressHextets_no_colon (a : Nat) :
    ∀ p ∈ compressHextets (hextets a), (':' : Char) ∉ p := by
  intro p hp
  rw [compressHextets] at hp
  have hmem_hex : ∀ q ∈ hextets a, (':' : Char) ∉ q := by
    intro q hq
    rw [hextets] at hq
    obtain ⟨g, hg, hgq⟩ := List.mem_map.mp hq
    rw [← hgq]
    intro hcin
    exact (mem_hexChars_ne g (toGroups_lt a g hg) ':' hcin).1 rfl
  by_cases hbl1 : (bestRun (hextets a)).2 ≤ 1
  · rw [if_pos hbl1] at hp
    exact hmem_hex p hp
  · rw [if_neg hbl1] at hp
    rcases List.mem_append.mp hp with h | h
    · rcases List.mem_append.mp h with h2 | h2
      · by_cases hpre : (hextets a).take (bestRun (hextets a)).1 = []
        · rw [if_pos hpre] at h2
          have hpn : p = [] := by simpa using h2
          subst hpn
          simp
        · rw [if_neg hpre] at h2
          exact hmem_hex p (List.mem_of_mem_take h2)
      · have hpn : p = [] := by simpa using h2
        subst hpn
        simp
    · by_cases hpost : (hextets a).drop
          ((bestRun (hextets a)).1 + (bestRun (hextets a)).2) = []
      · rw [if_pos hpost] at h
        have hpn : p = [] := by simpa using h
        subst hpn
        simp
      · rw [if_neg hpost] at h
        exact hmem_hex p (List.mem_of_mem_drop h)

theorem parseAddrChars_addrChars (a : Nat) (ha : a < 2 ^ 128) :
    parseAddrChars (addrChars a) = some a := by
  rw [parseAddrChars, addrChars]
  rw [splitOnChar_joinSep ':' (compressHextets (hextets a))
    (compressHextets_hextets_ne_nil a) (mem_compressHextets_no_colon a)]
  exact parse_parts_compressHextets a ha

/- ### Theorems: mask arithmetic and the network round trip -/

theorem maskAddr_add_high (a p : Nat) (hp : p ≤ 127) (hm : maskAddr a p = a) :
    maskAddr (a + 2 ^ (127 - p)) p = a := by
  have hd : (0 : Nat) < 2 ^ (128 - p) := pow_pos (by omega) _
  have hs : 2 ^ (127 - p) < 2 ^ (128 - p) := by
    have h1 : 128 - p = (127 - p) + 1 := by omega
    rw [h1, pow_succ]
    have h2 : (0 : Nat) < 2 ^ (127 - p) := pow_pos (by omega) _
    omega
  rw [maskAddr] at hm ⊢
  have key : (a + 2 ^ (127 - p)) / 2 ^ (128 - p) = a / 2 ^ (128 - p) := by
    conv_lhs => rw [← hm]
    rw [Nat.add_comm, Nat.add_mul_div_right _ _ hd, Nat.div_eq_of_lt hs]
    omega
  rw [key, hm]

theorem maskAddr_last_self (a p : Nat) (hp : p ≤ 127) (hm : maskAddr a p = a) :
    maskAddr (a + 2 ^ (127 - p)) (p + 1) = a + 2 ^ (127 - p) := by
  have h128 : 128 - (p + 1) = 127 - p := by omega
  rw [maskAddr, h128]
  have hdvd : 2 ^ (127 - p) ∣ a + 2 ^ (127 - p) := by
    apply Nat.dvd_add
    · have h1 : 2 ^ (127 - p) ∣ 2 ^ (128 - p) := pow_dvd_pow 2 (by omega)
      have h2 : 2 ^ (128 - p) ∣ a := by
        refine ⟨a / 2 ^ (128 - p), ?_⟩
        have hm2 : a / 2 ^ (128 - p) * 2 ^ (128 - p) = a := hm
        conv_lhs => rw [← hm2]
        ring
      exact dvd_trans h1 h2
    · exact dvd_refl _
  exact Nat.div_mul_cancel hdvd

theorem supernet_last (a p : Nat) (hp : p ≤ 127) (hm : maskAddr a p = a) :
    IPv6Network.supernet ⟨a + 2 ^ (127 - p), p + 1⟩ = ⟨a, p⟩ := by
  rw [IPv6Network.supernet]
  rw [if_neg (by simp)]
  simp only [Nat.add_sub_cancel]
  rw [maskAddr_add_high a p hp hm]

theorem last_addr_lt (a p : Nat) (hp : p ≤ 127) (ha : a < 2 ^ 128)
    (hm : maskAddr a p = a) : a + 2 ^ (127 - p) < 2 ^ 128 := by
  have hd : (0 : Nat) < 2 ^ (128 - p) := pow_pos (by omega) _
  have hs : 2 ^ (127 - p) < 2 ^ (128 - p) := by
    have h1 : 128 - p = (127 - p) + 1 := by omega
    rw [h1, pow_succ]
    have h2 : (0 : Nat) < 2 ^ (127 - p) := pow_pos (by omega) _
    omega
  have hstep : a + 2 ^ (128 - p) ≤ 2 ^ 128 := by
    obtain ⟨q, hq⟩ : 2 ^ (128 - p) ∣ a := by
      refine ⟨a / 2 ^ (128 - p), ?_⟩
      have hm2 : a / 2 ^ (128 - p) * 2 ^ (128 - p) = a := hm
      conv_lhs => rw [← hm2]
      ring
    obtain ⟨m, hmq⟩ : 2 ^ (128 - p) ∣ 2 ^ 128 := pow_dvd_pow 2 (by omega)
    have hqm : q < m := by
      by_contra hc
      push_neg at hc
      have h3 : 2 ^ (128 - p) * m ≤ 2 ^ (128 - p) * q := Nat.mul_le_mul_left _ hc
      omega
    calc a + 2 ^ (128 - p) = 2 ^ (128 - p) * (q + 1) := by rw [hq]; ring
      _ ≤ 2 ^ (128 - p) * m := Nat.mul_le_mul_left _ (by omega)
      _ = 2 ^ 128 := hmq.symm
  omega

theorem mem_compressHextets_no_slash (a : Nat) :
    ∀ p ∈ compressHextets (hextets a), ('/' : Char) ∉ p := by
  intro p hp
  rw [compressHextets] at hp
  have hmem_hex : ∀ q ∈ hextets a, ('/' : Char) ∉ q := by
    intro q hq
    rw [hextets] at hq
    obtain ⟨g, hg, hgq⟩ := List.mem_map.mp hq
    rw [← hgq]
    intro hcin
    exact (mem_hexChars_ne g (toGroups_lt a g hg) '/' hcin).2 rfl
  by_cases hbl1 : (bestRun (hextets a)).2 ≤ 1
  · rw [if_pos hbl1] at hp
    exact hmem_hex p hp
  · rw [if_neg hbl1] at hp
    rcases List.mem_append.mp hp with h | h
    · rcases List.mem_append.mp h with h2 | h2
      · by_cases hpre : (hextets a).take (bestRun (hextets a)).1 = []
        · rw [if_pos hpre] at h2
          have hpn : p = [] := by simpa using h2
          subst hpn
          simp
        · rw [if_neg hpre] at h2
          exact hmem_hex p (List.mem_of_mem_take h2)
      · have hpn : p = [] := by simpa using h2
        subst hpn
        simp
    · by_cases hpost : (hextets a).drop
          ((bestRun (hextets a)).1 + (bestRun (hextets a)).2) = []
      · rw [if_pos hpost] at h
        have hpn : p = [] := by simpa using h
        subst hpn
        simp
      · rw [if_neg hpost] at h
        exact hmem_hex p (List.mem_of_mem_drop h)

theorem no_slash_addrChars (a : Nat) : ('/' : Char) ∉ addrChars a := by
  rw [addrChars]
  intro hc
  rcases mem_joinSep ':' _ '/' hc with h | ⟨p, hp, hcp⟩
  · exact absurd h (by decide)
  · exact mem_compressHextets_no_slash a p hp hcp

theorem parse_str_IPv6Network (n : IPv6Network) (hp : n.plen ≤ 128)
    (ha : n.addr < 2 ^ 128) (hm : maskAddr n.addr n.plen = n.addr) :
    parse_IPv6Network_strict (str_IPv6Network n) = some n := by
  have hslash2 : ('/' : Char) ∉ decChars n.plen := by
    intro hc
    exact mem_decChars_ne_slash n.plen '/' hc rfl
  have hdata : (String.mk (netChars n)).data = netChars n := rfl
  rw [str_IPv6Network, parse_IPv6Network_strict, hdata, netChars,
    splitOnChar_append_sep '/' (addrChars n.addr) (decChars n.plen) (no_slash_addrChars n.addr),
    splitOnChar_no_sep '/' (decChars n.plen) hslash2]
  simp only [parseAddrChars_addrChars n.addr ha, parseNetmaskChars_decChars n.plen hp,
    if_pos hm]

/- ### Theorems: the selection loop -/

theorem select_loop_filter : ∀ (rs : List AddrInfo), (∀ r ∈ rs, r.wf) →
    ∀ v acc, select_loop rs v acc = select_loop (rs.filter spec_is_candidate) v acc := by
  intro rs
  induction rs with
  | nil => intro _ v acc; rfl
  | cons r rs ih =>
    intro hwf v acc
    have hwfr : r.wf := hwf r (List.mem_cons_self _ _)
    have hwfs : ∀ x ∈ rs, x.wf := fun x hx => hwf x (List.mem_cons_of_mem _ hx)
    by_cases hemp : r.isEmptyDict = true
    · have hcand : spec_is_candidate r = false := by
        simp [spec_is_candidate, hemp]
      rw [List.filter_cons_of_neg (by simp [hcand]), select_loop, if_pos hemp]
      exact ih hwfs v acc
    · have hempf : r.isEmptyDict = false := Bool.eq_false_iff.mpr hemp
      rcases hwfr with hemp2 | ⟨hla, hvla, hpla, hplb⟩
      · exact absurd hemp2 hemp
      obtain ⟨a, ha⟩ := Option.isSome_iff_exists.mp hla
      obtain ⟨vl, hvl⟩ := Option.isSome_iff_exists.mp hvla
      obtain ⟨p, hp⟩ := Option.isSome_iff_exists.mp hpla
      have hple : p ≤ 128 := by rw [hp] at hplb; simpa using hplb
      by_cases hpriv : check_private a = true
      · have hcand : spec_is_candidate r = false := by
          simp [spec_is_candidate, hempf, ha, hpriv]
        rw [List.filter_cons_of_neg (by simp [hcand]), select_loop]
        simp only [if_neg hemp, ha, if_pos hpriv]
        exact ih hwfs v acc
      · have hprivf : check_private a = false := Bool.eq_false_iff.mpr hpriv
        have hcand : spec_is_candidate r = true := by
          simp [spec_is_candidate, hempf, ha, hprivf]
        rw [List.filter_cons_of_pos (by simp [hcand])]
        rw [select_loop, select_loop]
        simp only [if_neg hemp, ha, if_neg hpriv, hvl]
        by_cases hv : v < vl
        · simp only [if_pos hv, hp, if_pos hple]
          exact ih hwfs vl (some ⟨maskAddr a p, p⟩)
        · simp only [if_neg hv]
          exact ih hwfs v acc

theorem c3_select_eq (rs : List AddrInfo) (hwf : ∀ r ∈ rs, r.wf) :
    select_network rs = select_network (rs.filter spec_is_candidate) := by
  rw [select_network, select_network, select_loop_filter rs hwf 0 none]

theorem select_loop_fold : ∀ (rs : List AddrInfo), (∀ r ∈ rs, r.wf) →
    ∀ v acc, select_loop rs v acc =
      .ok (List.foldl selStep (v, acc) (spec_candidates rs)).2 := by
  intro rs
  induction rs with
  | nil => intro _ v acc; rfl
  | cons r rs ih =>
    intro hwf v acc
    have hwfr : r.wf := hwf r (List.mem_cons_self _ _)
    have hwfs : ∀ x ∈ rs, x.wf := fun x hx => hwf x (List.mem_cons_of_mem _ hx)
    by_cases hemp : r.isEmptyDict = true
    · have hcand : spec_is_candidate r = false := by simp [spec_is_candidate, hemp]
      rw [select_loop, if_pos hemp, spec_candidates,
        List.filter_cons_of_neg (by simp [hcand])]
      exact ih hwfs v acc
    · have hempf : r.isEmptyDict = false := Bool.eq_false_iff.mpr hemp
      rcases hwfr with hemp2 | ⟨hla, hvla, hpla, hplb⟩
      · exact absurd hemp2 hemp
      obtain ⟨a, ha⟩ := Option.isSome_iff_exists.mp hla
      obtain ⟨vl, hvl⟩ := Option.isSome_iff_exists.mp hvla
      obtain ⟨p, hp⟩ := Option.isSome_iff_exists.mp hpla
      have hple : p ≤ 128 := by rw [hp] at hplb; simpa using hplb
      by_cases hpriv : check_private a = true
      · have hcand : spec_is_candidate r = false := by
          simp [spec_is_candidate, hempf, ha, hpriv]
        rw [select_loop]
        simp only [if_neg hemp, ha, if_pos hpriv]
        rw [spec_candidates, List.filter_cons_of_neg (by simp [hcand])]
        exact ih hwfs v acc
      · have hprivf : check_private a = false := Bool.eq_false_iff.mpr hpriv
        have hcand : spec_is_candidate r = true := by
          simp [spec_is_candidate, hempf, ha, hprivf]
        rw [select_loop]
        simp only [if_neg hemp, ha, if_neg hpriv, hvl]
        rw [spec_candidates, List.filter_cons_of_pos (by simp [hcand]), List.foldl_cons]
        have hstep : selStep (v, acc) r =
            if v < vl then (vl, some ⟨maskAddr a p, p⟩) else (v, acc) := by
          rw [selStep, specVlt, hvl]
          simp only [Option.getD_some]
          by_cases hv : v < vl
          · rw [if_pos hv, if_pos hv, netOfRec, ha, hp]
            simp [Option.getD_some]
          · rw [if_neg hv, if_neg hv]
        by_cases hv : v < vl
        · simp only [if_pos hv, hp, if_pos hple, hstep]
          exact ih hwfs vl (some ⟨maskAddr a p, p⟩)
        · simp only [if_neg hv, hstep]
          exact ih hwfs v acc

theorem foldl_selStep_const : ∀ (cs : List AddrInfo) (v : Nat) (acc : Option IPv6Network),
    (∀ r ∈ cs, specVlt r ≤ v) → List.foldl selStep (v, acc) cs = (v, acc) := by
  intro cs
  induction cs with
  | nil => intro v acc _; rfl
  | cons c cs ih =>
    intro v acc h
    rw [List.foldl_cons]
    have hc : specVlt c ≤ v := h c (List.mem_cons_self _ _)
    have hstep : selStep (v, acc) c = (v, acc) := by
      rw [selStep]
      exact if_neg (by simp; omega)
    rw [hstep]
    exact ih v acc (fun r hr => h r (List.mem_cons_of_mem _ hr))

theorem le_foldl_max : ∀ (cs : List AddrInfo) (v : Nat),
    v ≤ List.foldl (fun m r => max m (specVlt r)) v cs := by
  intro cs
  induction cs with
  | nil => intro v; exact le_rfl
  | cons c cs ih =>
    intro v
    rw [List.foldl_cons]
    exact le_trans (Nat.le_max_left v (specVlt c)) (ih (max v (specVlt c)))

theorem mem_le_foldl_max : ∀ (cs : List AddrInfo) (v : Nat) (r : AddrInfo), r ∈ cs →
    specVlt r ≤ List.foldl (fun m r => max m (specVlt r)) v cs := by
  intro cs
  induction cs with
  | nil => intro v r hr; simp at hr
  | cons c cs ih =>
    intro v r hr
    rw [List.foldl_cons]
    rcases List.mem_cons.mp hr with h | h
    · subst h
      exact le_trans (Nat.le_max_right v (specVlt r)) (le_foldl_max cs _)
    · exact ih _ r h

theorem foldl_selStep_argmax : ∀ (cs : List AddrInfo) (v : Nat) (acc : Option IPv6Network)
    (M : Nat), M = List.foldl (fun m r => max m (specVlt r)) v cs → v < M →
    ∃ r, cs.find? (fun r => specVlt r == M) = some r ∧ specVlt r = M ∧
      (List.foldl selStep (v, acc) cs).2 = some (netOfRec r) := by
  intro cs
  induction cs with
  | nil =>
    intro v acc M hM hv
    rw [List.foldl_nil] at hM
    omega
  | cons c cs ih =>
    intro v acc M hM hv
    rw [List.foldl_cons] at hM
    by_cases hc : v < specVlt c
    · have hmax : max v (specVlt c) = specVlt c := Nat.max_eq_right (by omega)
      rw [hmax] at hM
      have hle : specVlt c ≤ M := hM ▸ le_foldl_max cs (specVlt c)
      by_cases heq : specVlt c = M
      · refine ⟨c, ?_, heq, ?_⟩
        · rw [List.find?_cons_of_pos _ (by simp [heq])]
        · rw [List.foldl_cons]
          have hstep : selStep (v, acc) c = (specVlt c, some (netOfRec c)) := by
            rw [selStep, if_pos (by simp; omega)]
          rw [hstep, foldl_selStep_const cs (specVlt c) (some (netOfRec c))
            (fun r hr => heq ▸ (hM ▸ mem_le_foldl_max cs (specVlt c) r hr))]
      · have hlt : specVlt c < M := lt_of_le_of_ne hle heq
        obtain ⟨r, hfind, hrM, hfold⟩ := ih (specVlt c) (some (netOfRec c)) M hM hlt
        refine ⟨r, ?_, hrM, ?_⟩
        · rw [List.find?_cons_of_neg _ (by simp [heq])]
          exact hfind
        · rw [List.foldl_cons]
          have hstep : selStep (v, acc) c = (specVlt c, some (netOfRec c)) := by
            rw [selStep, if_pos (by simp; omega)]
          rw [hstep]
          exact hfold
    · have hmax : max v (specVlt c) = v := Nat.max_eq_left (by omega)
      rw [hmax] at hM
      have hvltc : specVlt c < M := by omega
      obtain ⟨r, hfind, hrM, hfold⟩ := ih v acc M hM hv
      refine ⟨r, ?_, hrM, ?_⟩
      · rw [List.find?_cons_of_neg _ (by simp; omega)]
        exact hfind
      · rw [List.foldl_cons]
        have hstep : selStep (v, acc) c = (v, acc) := by
          rw [selStep, if_neg (by simp; omega)]
        rw [hstep]
        exact hfold

/- ### Theorems: JSON object operations -/

theorem jlookup_setKey_self : ∀ (cfg : JObj) (k : String) (v : JVal),
    jlookup (setKey cfg k v) k = some v := by
  intro cfg
  induction cfg with
  | nil => intro k v; simp [setKey, jlookup]
  | cons e rest ih =>
    intro k v
    rcases e with ⟨k0, v0⟩
    rw [setKey]
    by_cases hk : k0 = k
    · rw [if_pos hk, jlookup, if_pos rfl]
    · rw [if_neg hk, jlookup, if_neg hk]
      exact ih k v

theorem jlookup_setKey_ne : ∀ (cfg : JObj) (k k2 : String) (v : JVal), k2 ≠ k →
    jlookup (setKey cfg k v) k2 = jlookup cfg k2 := by
  intro cfg
  induction cfg with
  | nil =>
    intro k k2 v hne
    rw [setKey, jlookup, jlookup, if_neg (fun hc => hne hc.symm)]
    rfl
  | cons e rest ih =>
    intro k k2 v hne
    rcases e with ⟨k0, v0⟩
    rw [setKey]
    by_cases hk : k0 = k
    · rw [if_pos hk, jlookup, jlookup, if_neg (fun hc => hne hc.symm), hk,
        if_neg (fun hc => hne hc.symm)]
    · rw [if_neg hk, jlookup, jlookup]
      by_cases hk2 : k0 = k2
      · rw [if_pos hk2, if_pos hk2]
      · rw [if_neg hk2, if_neg hk2]
        exact ih k k2 v hne

theorem sortedEntries_sorted (cfg : JObj) :
    List.Sorted (fun a b => keyLe a b = true) (sortedEntries cfg) :=
  List.sorted_insertionSort _ cfg

theorem sortedEntries_keys_sorted (cfg : JObj) :
    List.Sorted (fun a b => stringKeyLe a b = true) ((sortedEntries cfg).map Prod.fst) := by
  have h := sortedEntries_sorted cfg
  rw [List.Sorted, List.pairwise_map]
  exact h

theorem sortedEntries_perm (cfg : JObj) : (sortedEntries cfg).Perm cfg :=
  List.perm_insertionSort _ cfg

/- ### Theorems: the amended selection property -/

theorem select_max_validity (rs : List AddrInfo)
    (hwf : ∀ r ∈ rs, r.wf) (hpos : 0 < spec_max_validity rs) :
    ∃ r a p vl, spec_selected rs = some r ∧ r.local_addr = some a ∧
      r.prefixlen = some p ∧ r.valid_life_time = some vl ∧
      vl = spec_max_validity rs ∧
      select_network rs = .ok ⟨maskAddr a p, p⟩ := by
  have hfold := select_loop_fold rs hwf 0 none
  have hM : spec_max_validity rs =
      List.foldl (fun m r => max m (specVlt r)) 0 (spec_candidates rs) := rfl
  obtain ⟨r, hfind, hrM, hsnd⟩ :=
    foldl_selStep_argmax (spec_candidates rs) 0 none (spec_max_validity rs) hM hpos
  have hrmem : r ∈ spec_candidates rs := List.mem_of_find?_eq_some hfind
  have hrs : r ∈ rs := List.mem_of_mem_filter hrmem
  have hcand : spec_is_candidate r = true := List.of_mem_filter hrmem
  have hnotemp : r.isEmptyDict = false := by
    cases hb : r.isEmptyDict
    · rfl
    · rw [spec_is_candidate, hb] at hcand
      simp at hcand
  rcases hwf r hrs with hemp | ⟨hla, hvla, hpla, _⟩
  · rw [hemp] at hnotemp; cases hnotemp
  obtain ⟨a, ha⟩ := Option.isSome_iff_exists.mp hla
  obtain ⟨vl, hvl⟩ := Option.isSome_iff_exists.mp hvla
  obtain ⟨p, hp⟩ := Option.isSome_iff_exists.mp hpla
  refine ⟨r, a, p, vl, ?_, ha, hp, hvl, ?_, ?_⟩
  · rw [spec_selected]
    exact hfind
  · have : specVlt r = vl := by rw [specVlt, hvl]; rfl
    omega
  · rw [select_network, hfold, hsnd]
    have hnet : netOfRec r = ⟨maskAddr a p, p⟩ := by
      rw [netOfRec, ha, hp]
      rfl
    rw [hnet]

/- ### Claim theorems -/

/-- C1: evaluation of the run at a missing configuration file.  The claim
says such a run is fatal (exit code 1, no restart); the code instead logs
the missing-file error twice, performs no write (the file stays absent),
but still invokes the daemon restart and exits with status 0 — the `None`
returned by `docker_sys_prefix_same` is treated as `False` by
`if not docker_sys_prefix_same(...)`. -/
theorem c1_missing_config_run :
    run_main c1_sys default_config_path none =
      ⟨0, none, false, true,
       [msg_config_missing default_config_path, msg_config_missing default_config_path],
       none⟩ := by
  decide

/-- C8: evaluation of the run at a record list whose filtered candidate
set is empty.  The claim says the run aborts with exit code 1 and a
logged error; the code does exit with status 1 and touches no
configuration, but it does so by crashing with a `NameError` on the
unbound `sys_ipv6_net` (no error is logged — the guard and its
`error('System has no usable IPv6 address')` are unreachable). -/
theorem c8_empty_candidates_crash :
    run_main c8_sys default_config_path (some c4_cfg) =
      ⟨1, some c4_cfg, false, false, [], some PyError.nameError⟩ := by
  decide

/-- C10: `get_global_ipv6` builds its command from the parsed global CLI
arguments, ignoring its `interface` parameter: the command is the same
for any two parameter values, and the `dev` argument (position 6) is the
global `args.interface`. -/
theorem c10_cmd_ignores_parameter :
    (∀ args_interface i1 i2 : String,
      get_global_ipv6_cmd args_interface i1 = get_global_ipv6_cmd args_interface i2) ∧
    (∀ args_interface i : String,
      nth (get_global_ipv6_cmd args_interface i) 6 = some args_interface) :=
  ⟨fun _ _ _ => rfl, fun _ _ => rfl⟩

/-- C4: for an existing configuration file whose CIDR key holds a string
parsing to the strict network `c`, `docker_sys_prefix_same` returns
`True` exactly when the supernet of `c` equals the selected network. -/
theorem c4_docker_sys_prefix_same_iff (path : String) (cfg : JObj)
    (net c : IPv6Network) (s : String)
    (h1 : jlookup cfg fixed_cidr_key = some (.str s))
    (h2 : parse_IPv6Network_strict s = some c) :
    docker_sys_prefix_same path (some cfg) net = .ok ⟨[], some true⟩ ↔
      IPv6Network.supernet c = net := by
  rw [docker_sys_prefix_same]
  simp only [h1, h2]
  constructor
  · intro h
    simp only [Except.ok.injEq, SameResult.mk.injEq, Option.some.injEq, true_and] at h
    exact of_decide_eq_true h
  · intro h
    simp [h]

/-- C4 witness: the concrete configuration `{"fixed-cidr-v6":
"2001:db8:1::/64"}` against the selected network `2001:db8:1::/63`. -/
theorem c4_docker_sys_prefix_same_iff_witness :
    jlookup c4_cfg fixed_cidr_key = some (.str ("2001:db8:1::/64")) ∧
    parse_IPv6Network_strict ("2001:db8:1::/64") = some c4_c ∧
    (docker_sys_prefix_same default_config_path (some c4_cfg) c4_net =
        .ok ⟨[], some true⟩ ↔ IPv6Network.supernet c4_c = c4_net) :=
  ⟨by decide, by decide,
   c4_docker_sys_prefix_same_iff default_config_path c4_cfg c4_net c4_c
     ("2001:db8:1::/64") (by decide) (by decide)⟩

/-- C5: a successful `update_docker_prefix` on an existing configuration
object changes only the CIDR key: every other key keeps its value. -/
theorem c5_update_preserves_other_keys (path : String) (cfg : JObj)
    (net : IPv6Network) (upd : UpdateResult)
    (h1 : update_docker_prefix path (some cfg) net = .ok upd) :
    ∃ cfg2, upd.new_fs = some cfg2 ∧
      ∀ k, k ≠ fixed_cidr_key → jlookup cfg2 k = jlookup cfg k := by
  rw [ update_docker_prefix] at h1
  by_cases hq : net.plen = 128
  · simp only [IPv6Network.subnets, if_pos hq, lastOf] at h1
    injection h1 with h1
    refine ⟨setKey cfg fixed_cidr_key (.str (str_IPv6Network net)), ?_, ?_⟩
    · rw [← h1]
    · intro k hk
      exact jlookup_setKey_ne cfg fixed_cidr_key k _ hk
  · by_cases hp : net.plen < 128
    · simp only [IPv6Network.subnets, if_neg hq, if_pos hp, lastOf] at h1
      injection h1 with h1
      refine ⟨setKey cfg fixed_cidr_key
        (.str (str_IPv6Network ⟨net.addr + 2 ^ (127 - net.plen), net.plen + 1⟩)), ?_, ?_⟩
      · rw [← h1]
      · intro k hk
        exact jlookup_setKey_ne cfg fixed_cidr_key k _ hk
    · simp only [IPv6Network.subnets, if_neg hq, if_neg hp] at h1
      cases h1

/-- C5 witness: the concrete update of `wit_cfg` by `wit_net` preserves
the unrelated key `ipv6`. -/
theorem c5_update_preserves_other_keys_witness :
    update_docker_prefix default_config_path (some wit_cfg) wit_net = .ok c7_upd ∧
    (∃ cfg2, c7_upd.new_fs = some cfg2 ∧
      ∀ k, k ≠ fixed_cidr_key → jlookup cfg2 k = jlookup wit_cfg k) :=
  ⟨by decide,
   c5_update_preserves_other_keys default_config_path wit_cfg wit_net c7_upd (by decide)⟩

/-- C2 counterexample: a single candidate record (non-private, full)
whose validity lifetime is 0.  The claim says the selection picks the
maximum-lifetime candidate and builds its network; the code never selects
a record whose lifetime is 0 (the accumulator starts at 0 with a strict
comparison), so the run crashes with a `NameError` instead of producing
that network. -/
theorem c2_zero_lifetime_counterexample :
    spec_candidates c2cex_records = [recOf gAddr1 64 0] ∧
    spec_selected c2cex_records = some (recOf gAddr1 64 0) ∧
    select_network c2cex_records = .error .nameError ∧
    select_network c2cex_records ≠ .ok (netOfRec (recOf gAddr1 64 0)) := by
  decide

/-- C2 (amended): on well-formed records, whenever some candidate has a
positive validity lifetime, the selection picks the first candidate
achieving the maximum lifetime (first occurrence on ties) and builds its
network from the record address and mask length with host bits masked
away; a candidate whose lifetime is 0 is never selected. -/
theorem c2_selection_first_max (rs : List AddrInfo)
    (hwf : ∀ r ∈ rs, r.wf) (hpos : 0 < spec_max_validity rs) :
    ∃ r a p vl, spec_selected rs = some r ∧ r.local_addr = some a ∧
      r.prefixlen = some p ∧ r.valid_life_time = some vl ∧
      vl = spec_max_validity rs ∧
      select_network rs = .ok ⟨maskAddr a p, p⟩ :=
  select_max_validity rs hwf hpos

/-- C2 witness: the spec example lifetimes 100, 300, 50 — the second
record is chosen. -/
theorem c2_selection_first_max_witness :
    (∀ r ∈ c2wit_records, r.wf) ∧ 0 < spec_max_validity c2wit_records ∧
    spec_selected c2wit_records = some (recOf gAddr2 64 300) ∧
    select_network c2wit_records = .ok ⟨maskAddr gAddr2 64, 64⟩ ∧
    (∃ r a p vl, spec_selected c2wit_records = some r ∧ r.local_addr = some a ∧
      r.prefixlen = some p ∧ r.valid_life_time = some vl ∧
      vl = spec_max_validity c2wit_records ∧
      select_network c2wit_records = .ok ⟨maskAddr a p, p⟩) :=
  ⟨by decide, by decide, by decide, by decide,
   c2_selection_first_max c2wit_records (by decide) (by decide)⟩

/-- C3 counterexample: a malformed record (non-empty, missing the
`local` key) followed by a perfectly good record.  The claim says
malformed records are filtered out and never cause the selection to
fail; the code only skips records that are exactly the empty dict, so
this run crashes with a `KeyError` — without the malformed record the
selection would succeed. -/
theorem c3_malformed_counterexample :
    select_network c3cex_records = .error .keyError ∧
    select_network (c3cex_records.filter spec_is_candidate) =
      .ok ⟨maskAddr gAddr2 64, 64⟩ := by
  decide

/-- C3 (amended): on well-formed records (each either exactly empty or
carrying the three fields), selection behaves exactly as if the empty
records and the private-address records had been removed first: they are
never selected and never cause the selection to fail. -/
theorem c3_empty_private_filtered (rs : List AddrInfo) (hwf : ∀ r ∈ rs, r.wf) :
    select_network rs = select_network (rs.filter spec_is_candidate) :=
  c3_select_eq rs hwf

/-- C3 witness: an empty record and a private record with the longest
lifetime are both ignored; the good record is selected. -/
theorem c3_empty_private_filtered_witness :
    (∀ r ∈ c3wit_records, r.wf) ∧
    select_network c3wit_records = select_network (c3wit_records.filter spec_is_candidate) ∧
    select_network c3wit_records = .ok ⟨maskAddr gAddr2 64, 64⟩ :=
  ⟨by decide, c3_empty_private_filtered c3wit_records (by decide), by decide⟩

/-- C6 counterexample: on the `/128` selected network `2a01:4f8::2/128`
the update derives no subnet of any requested size — `subnets()` yields
the network itself — and the string stored under `fixed-cidr-v6`
denotes that very `/128` network, not a smaller subnet carved from
it. -/
theorem c6_slash128_counterexample :
    c7cex_net.plen = 128 ∧
    IPv6Network.subnets c7cex_net = .ok [c7cex_net] ∧
    update_docker_prefix default_config_path (some wit_cfg) c7cex_net = .ok c7cex_upd ∧
    jlookup c7cex_cfg2 fixed_cidr_key = some (.str (str_IPv6Network c7cex_net)) ∧
    parse_IPv6Network_strict (str_IPv6Network c7cex_net) = some c7cex_net := by
  decide

/-- C6 (amended): for a selected network of prefix length below 128 a
successful update takes the last of the two subnets one bit longer (its
upper half — Python `*_, last_subnet = sys_ipv6_net.subnets()`); for a
`/128` selected network `subnets()` yields the network itself, and its
own string — not a smaller subnet — is stored.  In both cases the
string form goes under `fixed-cidr-v6` and the whole object is written
back as indented, key-sorted JSON that replaces the previous file
contents: the written text renders exactly the sorted entries of the
full updated object. -/
theorem c6_update_writes_last_subnet (path : String) (cfg : JObj)
    (net : IPv6Network) (hp : net.plen ≤ 128) :
    (net.plen < 128 →
      IPv6Network.subnets net = .ok [⟨net.addr, net.plen + 1⟩, last_subnet_of net] ∧
      last_subnet_of net = ⟨net.addr + 2 ^ (127 - net.plen), net.plen + 1⟩) ∧
    (net.plen = 128 →
      IPv6Network.subnets net = .ok [net] ∧ last_subnet_of net = net) ∧
    update_docker_prefix path (some cfg) net =
      .ok ⟨[], some (setKey cfg fixed_cidr_key
          (.str (str_IPv6Network (last_subnet_of net)))),
        some (json_dump (setKey cfg fixed_cidr_key
          (.str (str_IPv6Network (last_subnet_of net)))))⟩ ∧
    jlookup (setKey cfg fixed_cidr_key (.str (str_IPv6Network (last_subnet_of net))))
      fixed_cidr_key = some (.str (str_IPv6Network (last_subnet_of net))) ∧
    json_dump (setKey cfg fixed_cidr_key (.str (str_IPv6Network (last_subnet_of net)))) =
      renderEntries (sortedEntries (setKey cfg fixed_cidr_key
        (.str (str_IPv6Network (last_subnet_of net))))) ∧
    List.Sorted (fun a b => stringKeyLe a b = true)
      ((sortedEntries (setKey cfg fixed_cidr_key
        (.str (str_IPv6Network (last_subnet_of net))))).map Prod.fst) ∧
    (sortedEntries (setKey cfg fixed_cidr_key
        (.str (str_IPv6Network (last_subnet_of net))))).Perm
      (setKey cfg fixed_cidr_key (.str (str_IPv6Network (last_subnet_of net)))) := by
  refine ⟨?_, ?_, ?_, jlookup_setKey_self _ _ _, rfl, sortedEntries_keys_sorted _,
    sortedEntries_perm _⟩
  · intro hlt
    have hne : ¬ net.plen = 128 := by omega
    rw [IPv6Network.subnets, if_neg hne, if_pos hlt, last_subnet_of, if_neg hne]
    exact ⟨rfl, rfl⟩
  · intro heq
    rw [IPv6Network.subnets, if_pos heq, last_subnet_of, if_pos heq]
    exact ⟨rfl, rfl⟩
  · rw [ update_docker_prefix]
    by_cases heq : net.plen = 128
    · simp only [IPv6Network.subnets, if_pos heq, lastOf, last_subnet_of]
    · have hlt : net.plen < 128 := by omega
      simp only [IPv6Network.subnets, if_neg heq, if_pos hlt, lastOf, last_subnet_of]

/-- C6 witness: the concrete update of `wit_cfg` by `2a01::/64` stores
`2a01::8000:0:0:0/65`, the last `/65` subnet. -/
theorem c6_update_writes_last_subnet_witness :
    wit_net.plen ≤ 128 ∧
    ((wit_net.plen < 128 →
      IPv6Network.subnets wit_net =
        .ok [⟨wit_net.addr, wit_net.plen + 1⟩, last_subnet_of wit_net] ∧
      last_subnet_of wit_net =
        ⟨wit_net.addr + 2 ^ (127 - wit_net.plen), wit_net.plen + 1⟩) ∧
    (wit_net.plen = 128 →
      IPv6Network.subnets wit_net = .ok [wit_net] ∧ last_subnet_of wit_net = wit_net) ∧
    update_docker_prefix default_config_path (some wit_cfg) wit_net =
      .ok ⟨[], some (setKey wit_cfg fixed_cidr_key
          (.str (str_IPv6Network (last_subnet_of wit_net)))),
        some (json_dump (setKey wit_cfg fixed_cidr_key
          (.str (str_IPv6Network (last_subnet_of wit_net)))))⟩ ∧
    jlookup (setKey wit_cfg fixed_cidr_key
        (.str (str_IPv6Network (last_subnet_of wit_net))))
      fixed_cidr_key = some (.str (str_IPv6Network (last_subnet_of wit_net))) ∧
    json_dump (setKey wit_cfg fixed_cidr_key
        (.str (str_IPv6Network (last_subnet_of wit_net)))) =
      renderEntries (sortedEntries (setKey wit_cfg fixed_cidr_key
        (.str (str_IPv6Network (last_subnet_of wit_net))))) ∧
    List.Sorted (fun a b => stringKeyLe a b = true)
      ((sortedEntries (setKey wit_cfg fixed_cidr_key
        (.str (str_IPv6Network (last_subnet_of wit_net))))).map Prod.fst) ∧
    (sortedEntries (setKey wit_cfg fixed_cidr_key
        (.str (str_IPv6Network (last_subnet_of wit_net))))).Perm
      (setKey wit_cfg fixed_cidr_key
        (.str (str_IPv6Network (last_subnet_of wit_net))))) :=
  ⟨by decide, c6_update_writes_last_subnet default_config_path wit_cfg wit_net (by decide)⟩

/-- C7 counterexample: with the `/128` selected network
`2a01:4f8::2/128` the update succeeds and stores the network's own
string, but the comparison on the written file is `False` — the
supernet of the stored `/128` is the containing `/127`, not the
selected network — so a run under identical system state writes the
file and restarts the daemon again instead of being a no-op. -/
theorem c7_slash128_counterexample :
    select_network c7cex_sys.addr_records = .ok c7cex_net ∧
    update_docker_prefix default_config_path (some wit_cfg) c7cex_net = .ok c7cex_upd ∧
    IPv6Network.supernet ⟨c7cex_net.addr, 128⟩ = ⟨c7cex_net.addr, 127⟩ ∧
    docker_sys_prefix_same default_config_path c7cex_upd.new_fs c7cex_net =
      .ok ⟨[], some false⟩ ∧
    run_main c7cex_sys default_config_path c7cex_upd.new_fs =
      ⟨0, c7cex_upd.new_fs, true, true, [], none⟩ := by
  decide

/-- C7 (amended): after a successful `update_docker_prefix` with a
selected network of prefix length below 128, `docker_sys_prefix_same`
on the written file with the same network returns `True` (round trip:
the supernet of the stored last subnet equals the network it was carved
from), so a run under identical system state performs no write and no
restart and exits with status 0.  For a `/128` selected network the
stored network is the selection itself and the comparison is `False`,
so every run rewrites and restarts. -/
theorem c7_update_then_same_true (sys : SysState) (path : String) (cfg : JObj)
    (net : IPv6Network) (upd : UpdateResult)
    (hp : net.plen < 128) (ha : net.addr < 2 ^ 128)
    (hm : maskAddr net.addr net.plen = net.addr)
    (hupd : update_docker_prefix path (some cfg) net = .ok upd)
    (hip : sys.ip_available = true) (hrc : sys.ip_returncode = 0)
    (hsel : select_network sys.addr_records = .ok net) :
    docker_sys_prefix_same path upd.new_fs net = .ok ⟨[], some true⟩ ∧
    run_main sys path upd.new_fs = ⟨0, upd.new_fs, false, false, [], none⟩ := by
  have hple : net.plen ≤ 127 := by omega
  rw [ update_docker_prefix] at hupd
  simp only [IPv6Network.subnets, if_neg (show ¬ net.plen = 128 by omega),
    if_pos hp, lastOf] at hupd
  injection hupd with hupd
  have hfs : upd.new_fs = some (setKey cfg fixed_cidr_key
      (.str (str_IPv6Network ⟨net.addr + 2 ^ (127 - net.plen), net.plen + 1⟩))) := by
    rw [← hupd]
  have hlast_lt : net.addr + 2 ^ (127 - net.plen) < 2 ^ 128 :=
    last_addr_lt net.addr net.plen hple ha hm
  have hlast_mask : maskAddr (net.addr + 2 ^ (127 - net.plen)) (net.plen + 1) =
      net.addr + 2 ^ (127 - net.plen) := maskAddr_last_self net.addr net.plen hple hm
  have hparse : parse_IPv6Network_strict (str_IPv6Network
      ⟨net.addr + 2 ^ (127 - net.plen), net.plen + 1⟩) =
      some ⟨net.addr + 2 ^ (127 - net.plen), net.plen + 1⟩ :=
    parse_str_IPv6Network ⟨net.addr + 2 ^ (127 - net.plen), net.plen + 1⟩
      (show net.plen + 1 ≤ 128 by omega) hlast_lt hlast_mask
  have hsuper : IPv6Network.supernet ⟨net.addr + 2 ^ (127 - net.plen), net.plen + 1⟩ =
      net := by
    rw [supernet_last net.addr net.plen hple hm]
  have hsame : docker_sys_prefix_same path upd.new_fs net = .ok ⟨[], some true⟩ := by
    rw [hfs, docker_sys_prefix_same]
    simp only [jlookup_setKey_self, hparse, hsuper]
    simp
  refine ⟨hsame, ?_⟩
  rw [run_main, if_neg (by rw [hip]; simp), if_neg (by rw [hrc]; simp)]
  simp only [hsel, hsame]
  rfl

/-- C7 witness: the concrete update of `wit_cfg` by `2a01::/64` followed
by a comparison and a full second run under the same system state. -/
theorem c7_update_then_same_true_witness :
    wit_net.plen < 128 ∧ wit_net.addr < 2 ^ 128 ∧
    maskAddr wit_net.addr wit_net.plen = wit_net.addr ∧
    update_docker_prefix default_config_path (some wit_cfg) wit_net = .ok c7_upd ∧
    c7_sys.ip_available = true ∧ c7_sys.ip_returncode = 0 ∧
    select_network c7_sys.addr_records = .ok wit_net ∧
    (docker_sys_prefix_same default_config_path c7_upd.new_fs wit_net =
        .ok ⟨[], some true⟩ ∧
      run_main c7_sys default_config_path c7_upd.new_fs =
        ⟨0, c7_upd.new_fs, false, false, [], none⟩) :=
  ⟨by decide, by decide, by decide, by decide, by decide, by decide, by decide,
   c7_update_then_same_true c7_sys default_config_path wit_cfg wit_net c7_upd
     (by decide) (by decide) (by decide) (by decide) (by decide) (by decide) (by decide)⟩

/-- C9: when the run reaches the restart step, a nonzero `systemctl`
exit status is logged as an error but the run still completes with exit
status 0 (the configuration write already happened); a zero exit status
logs the restart as successful. -/
theorem c9_restart_failure_nonfatal (sys : SysState) (path : String) (fs0 : ConfigFS)
    (net : IPv6Network) (same : SameResult) (upd : UpdateResult)
    (h1 : sys.ip_available = true) (h2 : sys.ip_returncode = 0)
    (h3 : select_network sys.addr_records = .ok net)
    (h4 : docker_sys_prefix_same path fs0 net = .ok same)
    (h5 : same.value ≠ some true)
    (h6 : update_docker_prefix path fs0 net = .ok upd) :
    run_main sys path fs0 =
      ⟨0, upd.new_fs, upd.written.isSome, true,
       same.errlogs ++ upd.errlogs ++
         (restart_docker sys.restart_returncode sys.restart_stderr).errlogs, none⟩ ∧
    (sys.restart_returncode ≠ 0 →
      (restart_docker sys.restart_returncode sys.restart_stderr).errlogs =
        ["Error while restarting docker daemon", sys.restart_stderr] ∧
      (restart_docker sys.restart_returncode sys.restart_stderr).infologs =
        ["Restarting docker daemon"]) ∧
    (sys.restart_returncode = 0 →
      (restart_docker sys.restart_returncode sys.restart_stderr).errlogs = [] ∧
      (restart_docker sys.restart_returncode sys.restart_stderr).infologs =
        ["Restarting docker daemon", "Docker daemon restarted successfully"]) := by
  refine ⟨?_, ?_, ?_⟩
  · rw [run_main, if_neg (by rw [h1]; simp), if_neg (by rw [h2]; simp)]
    simp only [h3, h4, if_neg h5, h6]
  · intro hr
    rw [restart_docker, if_pos hr]
    exact ⟨rfl, rfl⟩
  · intro hr
    rw [restart_docker, if_neg (by rw [hr]; simp)]
    exact ⟨rfl, rfl⟩

/-- C9 witness: a concrete run against `wit_cfg` whose restart fails
with status 1 and diagnostic output. -/
theorem c9_restart_failure_nonfatal_witness :
    c9_sys.ip_available = true ∧ c9_sys.ip_returncode = 0 ∧
    select_network c9_sys.addr_records = .ok c9_net ∧
    docker_sys_prefix_same default_config_path (some wit_cfg) c9_net = .ok c9_same ∧
    c9_same.value ≠ some true ∧
    update_docker_prefix default_config_path (some wit_cfg) c9_net = .ok c9_upd ∧
    (run_main c9_sys default_config_path (some wit_cfg) =
      ⟨0, c9_upd.new_fs, c9_upd.written.isSome, true,
       c9_same.errlogs ++ c9_upd.errlogs ++
         (restart_docker c9_sys.restart_returncode c9_sys.restart_stderr).errlogs, none⟩ ∧
    (c9_sys.restart_returncode ≠ 0 →
      (restart_docker c9_sys.restart_returncode c9_sys.restart_stderr).errlogs =
        ["Error while restarting docker daemon", c9_sys.restart_stderr] ∧
      (restart_docker c9_sys.restart_returncode c9_sys.restart_stderr).infologs =
        ["Restarting docker daemon"]) ∧
    (c9_sys.restart_returncode = 0 →
      (restart_docker c9_sys.restart_returncode c9_sys.restart_stderr).errlogs = [] ∧
      (restart_docker c9_sys.restart_returncode c9_sys.restart_stderr).infologs =
        ["Restarting docker daemon", "Docker daemon restarted successfully"])) :=
  ⟨by decide, by decide, by decide, by decide, by decide, by decide,
   c9_restart_failure_nonfatal c9_sys default_config_path (some wit_cfg) c9_net
     c9_same c9_upd (by decide) (by decide) (by decide) (by decide) (by decide) (by decide)⟩
